import Mathlib

/-!
Verification of the gitscope-bot message-state / animation / pagination core.

The Python source is shallowly embedded: message texts are `List Char`
(Python `str` viewed as a sequence of code points), `str.split('\n')` /
`'\n'.join` become `splitOnNL` / `joinNL`, dictionaries of animation frames
become association lists, and the `async` control flow of each handler is
embedded as a pure function from the outcome of its external calls to the
final message/task state.
-/

set_option autoImplicit false

namespace GitScope

/-! ### Character helpers (Python `str` predicates) -/

/-- The whitespace characters stripped by Python `str.strip()` (ASCII part):
space, tab, newline, carriage return, vertical tab, form feed. -/
def isPySpace (c : Char) : Bool :=
  c == ' ' || c == '\t' || c == '\n' || c == '\r' ||
  c == Char.ofNat 11 || c == Char.ofNat 12

/-- Python `sub in s` substring containment on code-point lists. -/
def hasSub (needle : List Char) : List Char → Bool
  | [] => needle.isEmpty
  | c :: t => needle.isPrefixOf (c :: t) || hasSub needle t

/-- Python `s.strip()` truthiness: a line is blank iff all characters are
whitespace (`line.strip()` is falsy). -/
def isBlank (line : List Char) : Bool := line.all isPySpace

/-- Python `s.lstrip()`. -/
def lstrip (l : List Char) : List Char := l.dropWhile isPySpace

/-- Python `s.rstrip()`. -/
def rstrip (l : List Char) : List Char := ((l.reverse).dropWhile isPySpace).reverse

/-- Python `message_text.split('\n')`: always returns at least one piece,
pieces contain no newline. -/
def splitOnNL : List Char → List (List Char)
  | [] => [[]]
  | c :: rest =>
    if c = '\n' then [] :: splitOnNL rest
    else
      match splitOnNL rest with
      | [] => [[c]]
      | l :: ls => (c :: l) :: ls

/-- Python `'\n'.join(lines)`. -/
def joinNL : List (List Char) → List Char
  | [] => []
  | [l] => l
  | l :: ls => l ++ '\n' :: joinNL ls

/-! ### AnimationClock (`src/utils/loading.py`, `LoadingAnimation.__init__`
and the frame selection `frames[frame_index % len(frames)]` of
`_animate_balanced`). -/

/-- `DEFAULT_ANIMATION = "bounce"`. -/
def DEFAULT_ANIMATION : String := "bounce"

/-- The `self.animations` dictionary of `LoadingAnimation.__init__`. -/
def animations : List (String × List String) :=
  [ ("dots", ["⏳", "⌛", "⏳", "⌛"]),
    ("spinner", ["🔄", "🔃", "🔄", "🔃"]),
    ("pulse", ["🔵", "🔷", "🔹", "🔷"]),
    ("wave", ["🌊", "〰️", "🌊", "〰️"]),
    ("stars", ["⭐", "🌟", "✨", "🌟"]),
    ("progress", ["▱", "▰", "▱", "▰"]),
    ("bounce", ["⚡", "💥", "⚡", "💥"]),
    ("fire", ["🔥", "🌋", "🔥", "🌋"]),
    ("rocket", ["🚀", "✨", "🚀", "✨"]),
    ("magic", ["🎭", "✨", "🎭", "✨"]),
    ("clock", ["🕐", "🕑", "🕒", "🕓"]),
    ("heart", ["💖", "💕", "💖", "💕"]),
    ("rainbow", ["🌈", "🌟", "🌈", "🌟"]),
    ("tech", ["⚙️", "🔧", "⚙️", "🔧"]),
    ("diamond", ["💎", "✨", "💎", "✨"]) ]

/-- Python `dict.get(key)` on an association list (insertion order). -/
def dictGet : List (String × List String) → String → Option (List String)
  | [], _ => none
  | (k, v) :: rest, s => if s == k then some v else dictGet rest s

/-- `self.animations.get(animation_type, self.animations[DEFAULT_ANIMATION])`
(`_animate_balanced`, line 101): unknown styles fall back to the default. -/
def framesFor (style : String) : List String :=
  (dictGet animations style).getD ((dictGet animations DEFAULT_ANIMATION).getD [])

/-- `frames[frame_index % len(frames)]` (`_animate_balanced`, line 112). -/
def frameAt (style : String) (tick : Nat) : String :=
  (framesFor style).getD (tick % (framesFor style).length) ""

theorem dictGet_all {P : List String → Prop} :
    ∀ l : List (String × List String), (∀ p ∈ l, P p.2) →
      ∀ s f, dictGet l s = some f → P f := by
  intro l
  induction l with
  | nil => intro _ s f h; simp [dictGet] at h
  | cons p rest ih =>
    intro hall s f h
    obtain ⟨k, v⟩ := p
    by_cases hk : s == k
    · simp [dictGet, hk] at h
      exact h ▸ hall (k, v) (List.mem_cons_self _ _)
    · simp [dictGet, hk] at h
      exact ih (fun q hq => hall q (List.mem_cons_of_mem _ hq)) s f h

theorem framesFor_length (s : String) : (framesFor s).length = 4 := by
  unfold framesFor
  cases h : dictGet animations s with
  | none => rfl
  | some f =>
    simpa using dictGet_all (P := fun f => f.length = 4) animations (by decide) s f h

/-- Claim C9: frame selection is pure and cyclic, frame lists are fixed and
non-empty, and an unknown style name deterministically falls back to the
default style's frames. -/
theorem frame_cycling (s : String) (t : Nat) :
    frameAt s t = frameAt s (t + (framesFor s).length) ∧
    0 < (framesFor s).length ∧
    (dictGet animations s = none → framesFor s = framesFor DEFAULT_ANIMATION) := by
  refine ⟨?_, ?_, ?_⟩
  · unfold frameAt
    rw [Nat.add_mod_right]
  · rw [framesFor_length]; omega
  · intro h
    unfold framesFor
    rw [h]
    rfl

/-- Witness for C9: a concrete style and tick. -/
theorem frame_cycling_witness :
    frameAt "spinner" 6 = frameAt "spinner" 10 ∧
    framesFor "nosuchstyle" = framesFor "bounce" := by
  constructor
  · have h := (frame_cycling "spinner" 6).1
    simpa [framesFor] using h
  · exact (frame_cycling "nosuchstyle" 0).2.2 rfl

/-! ### MessageState status-region replacement
(`src/utils/loading.py`, `LoadingAnimation._find_tip_line` and
`LoadingAnimation._replace_tip_line`). -/

/-- The tip-marker test of `_find_tip_line` (line 41):
`"💡" in line and "tip" in line.lower()`. -/
def markerCheck (line : List Char) : Bool :=
  hasSub ['💡'] line && hasSub ['t', 'i', 'p'] (line.map Char.toLower)

/-- First loop of `_find_tip_line` (lines 40-42): index of the first line
containing the tip marker. -/
def firstMarkerIdx : List (List Char) → Option Nat
  | [] => none
  | l :: ls => if markerCheck l then some 0 else (firstMarkerIdx ls).map (· + 1)

/-- Second loop of `_find_tip_line` (lines 45-47): index of the last
non-blank line (`lines[i].strip()` truthy), scanning from the end. -/
def lastNonBlankIdx : List (List Char) → Option Nat
  | [] => none
  | l :: ls =>
    match lastNonBlankIdx ls with
    | some i => some (i + 1)
    | none => if isBlank l then none else some 0

/-- `_find_tip_line`: marker line first, else last non-blank line, else
`-1` (modelled as `none`). -/
def findTipIdx (lines : List (List Char)) : Option Nat :=
  match firstMarkerIdx lines with
  | some i => some i
  | none => lastNonBlankIdx lines

/-- `_replace_tip_line` on the split line list (lines 64-70):
replace the located line, or append when no line was located. -/
def replaceTipLines (lines : List (List Char)) (newTip : List Char) :
    List (List Char) :=
  match findTipIdx lines with
  | some i => lines.set i newTip
  | none => lines ++ [newTip]

/-- `_replace_tip_line(message_text, new_tip_line)` (lines 62-72):
split on newlines, replace the tip region, join back. -/
def replaceTipLine (messageText newTip : List Char) : List Char :=
  joinNL (replaceTipLines (splitOnNL messageText) newTip)

theorem splitOnNL_ne_nil (s : List Char) : splitOnNL s ≠ [] := by
  induction s with
  | nil => simp [splitOnNL]
  | cons c rest ih =>
    unfold splitOnNL
    by_cases h : c = '\n'
    · simp [h]
    · simp only [if_neg h]
      cases splitOnNL rest <;> simp

theorem mem_splitOnNL_no_nl (s : List Char) :
    ∀ l ∈ splitOnNL s, '\n' ∉ l := by
  induction s with
  | nil => intro l hl; simp [splitOnNL] at hl; simp [hl]
  | cons c rest ih =>
    intro l hl
    unfold splitOnNL at hl
    by_cases h : c = '\n'
    · simp only [if_pos h] at hl
      rcases List.mem_cons.1 hl with h1 | h1
      · simp [h1]
      · exact ih l h1
    · simp only [if_neg h] at hl
      cases hsp : splitOnNL rest with
      | nil => exact absurd hsp (splitOnNL_ne_nil rest)
      | cons p ps =>
        rw [hsp] at hl
        rcases List.mem_cons.1 hl with h1 | h1
        · subst h1
          intro hmem
          rcases List.mem_cons.1 hmem with h2 | h2
          · exact h h2.symm
          · exact ih p (hsp ▸ List.mem_cons_self _ _) h2
        · exact ih l (hsp ▸ List.mem_cons_of_mem _ h1)

theorem splitOnNL_cons_ne {c : Char} (hc : ¬c = '\n') (s : List Char) :
    splitOnNL (c :: s) =
      match splitOnNL s with
      | [] => [[c]]
      | l :: ls => (c :: l) :: ls := by
  conv_lhs => unfold splitOnNL
  rw [if_neg hc]

theorem splitOnNL_singleton {l : List Char} (h : '\n' ∉ l) :
    splitOnNL l = [l] := by
  induction l with
  | nil => rfl
  | cons c rest ih =>
    have hc : ¬c = '\n' := fun he => h (he ▸ List.mem_cons_self _ _)
    have hr : '\n' ∉ rest := fun hm => h (List.mem_cons_of_mem _ hm)
    rw [splitOnNL_cons_ne hc, ih hr]

theorem splitOnNL_append_nl {l : List Char} (t : List Char) (h : '\n' ∉ l) :
    splitOnNL (l ++ '\n' :: t) = l :: splitOnNL t := by
  induction l with
  | nil => simp [splitOnNL]
  | cons c rest ih =>
    have hc : ¬c = '\n' := fun he => h (he ▸ List.mem_cons_self _ _)
    have hr : '\n' ∉ rest := fun hm => h (List.mem_cons_of_mem _ hm)
    show splitOnNL (c :: (rest ++ '\n' :: t)) = (c :: rest) :: splitOnNL t
    rw [splitOnNL_cons_ne hc, ih hr]

theorem splitOnNL_joinNL : ∀ ls : List (List Char), ls ≠ [] →
    (∀ l ∈ ls, '\n' ∉ l) → splitOnNL (joinNL ls) = ls := by
  intro ls
  induction ls with
  | nil => intro h; exact absurd rfl h
  | cons l rest ih =>
    intro _ hfree
    cases rest with
    | nil =>
      show splitOnNL (joinNL [l]) = [l]
      exact splitOnNL_singleton (hfree l (List.mem_cons_self _ _))
    | cons l' rest' =>
      show splitOnNL (l ++ '\n' :: joinNL (l' :: rest')) = l :: l' :: rest'
      rw [splitOnNL_append_nl _ (hfree l (List.mem_cons_self _ _))]
      rw [ih (by simp) (fun x hx => hfree x (List.mem_cons_of_mem _ hx))]

theorem firstMarkerIdx_set_self {L : List Char} (hm : markerCheck L = true) :
    ∀ (lines : List (List Char)) (i : Nat), firstMarkerIdx lines = some i →
      firstMarkerIdx (lines.set i L) = some i := by
  intro lines
  induction lines with
  | nil => intro i h; simp [firstMarkerIdx] at h
  | cons l ls ih =>
    intro i h
    unfold firstMarkerIdx at h
    by_cases hl : markerCheck l
    · rw [if_pos hl] at h
      obtain rfl : i = 0 := by simpa using h.symm
      simp [firstMarkerIdx, hm]
    · rw [if_neg hl] at h
      cases hrec : firstMarkerIdx ls with
      | none => rw [hrec] at h; simp at h
      | some j =>
        rw [hrec] at h
        obtain rfl : i = j + 1 := by simpa using h.symm
        show firstMarkerIdx (l :: ls.set j L) = some (j + 1)
        unfold firstMarkerIdx
        rw [if_neg hl, ih j hrec]
        rfl

theorem firstMarkerIdx_none_set {L : List Char} (hm : markerCheck L = true) :
    ∀ (lines : List (List Char)) (i : Nat), firstMarkerIdx lines = none →
      lastNonBlankIdx lines = some i →
      firstMarkerIdx (lines.set i L) = some i := by
  intro lines
  induction lines with
  | nil => intro i _ h; simp [lastNonBlankIdx] at h
  | cons l ls ih =>
    intro i hmk hnb
    unfold firstMarkerIdx at hmk
    by_cases hl : markerCheck l
    · rw [if_pos hl] at hmk; simp at hmk
    · rw [if_neg hl] at hmk
      have hls : firstMarkerIdx ls = none := by
        cases h' : firstMarkerIdx ls with
        | none => rfl
        | some j => rw [h'] at hmk; simp at hmk
      unfold lastNonBlankIdx at hnb
      cases hrec : lastNonBlankIdx ls with
      | some j =>
        rw [hrec] at hnb
        obtain rfl : i = j + 1 := by simpa using hnb.symm
        show firstMarkerIdx (l :: ls.set j L) = some (j + 1)
        unfold firstMarkerIdx
        rw [if_neg hl, ih j hls hrec]
        rfl
      | none =>
        rw [hrec] at hnb
        by_cases hb : isBlank l
        · rw [if_pos hb] at hnb; simp at hnb
        · rw [if_neg hb] at hnb
          obtain rfl : i = 0 := by simpa using hnb.symm
          simp [firstMarkerIdx, hm]

theorem firstMarkerIdx_append_marker {L : List Char} (hm : markerCheck L = true) :
    ∀ lines : List (List Char), firstMarkerIdx lines = none →
      firstMarkerIdx (lines ++ [L]) = some lines.length := by
  intro lines
  induction lines with
  | nil => intro _; simp [firstMarkerIdx, hm]
  | cons l ls ih =>
    intro h
    unfold firstMarkerIdx at h
    by_cases hl : markerCheck l
    · rw [if_pos hl] at h; simp at h
    · rw [if_neg hl] at h
      have hls : firstMarkerIdx ls = none := by
        cases h' : firstMarkerIdx ls with
        | none => rfl
        | some j => rw [h'] at h; simp at h
      show firstMarkerIdx (l :: (ls ++ [L])) = some (ls.length + 1)
      unfold firstMarkerIdx
      rw [if_neg hl, ih hls]
      rfl

theorem set_append_singleton (lines : List (List Char)) (L : List Char) :
    (lines ++ [L]).set lines.length L = lines ++ [L] := by
  induction lines with
  | nil => rfl
  | cons l ls ih => simp [ih]

theorem hasSub_singleton_mem {c : Char} :
    ∀ l : List Char, hasSub [c] l = true → c ∈ l := by
  intro l
  induction l with
  | nil => intro h; simp [hasSub] at h
  | cons x t ih =>
    intro h
    unfold hasSub at h
    rw [Bool.or_eq_true] at h
    rcases h with h | h
    · have hcx : c = x := by simpa [List.isPrefixOf] using h
      rw [hcx]
      exact List.mem_cons_self _ _
    · exact List.mem_cons_of_mem _ (ih h)

theorem marker_not_blank {l : List Char} (h : markerCheck l = true) :
    isBlank l = false := by
  unfold markerCheck at h
  rw [Bool.and_eq_true] at h
  have hmem : '💡' ∈ l := hasSub_singleton_mem l h.1
  cases hb : isBlank l with
  | false => rfl
  | true =>
    unfold isBlank at hb
    rw [List.all_eq_true] at hb
    have := hb _ hmem
    simp [isPySpace] at this

theorem set_getD_self {α : Type} (d a : α) :
    ∀ (l : List α) (i : Nat), i < l.length → (l.set i a).getD i d = a := by
  intro l
  induction l with
  | nil => intro i h; simp at h
  | cons x t ih =>
    intro i h
    cases i with
    | zero => rfl
    | succ i' =>
      rw [List.set_cons_succ, List.getD_cons_succ]
      exact ih i' (by simpa using h)

theorem set_getD_ne {α : Type} (d a : α) :
    ∀ (l : List α) (i j : Nat), i ≠ j → (l.set i a).getD j d = l.getD j d := by
  intro l
  induction l with
  | nil => intro i j _; simp
  | cons x t ih =>
    intro i j hne
    cases i with
    | zero =>
      cases j with
      | zero => exact absurd rfl hne
      | succ j' => rfl
    | succ i' =>
      cases j with
      | zero => rfl
      | succ j' =>
        rw [List.set_cons_succ, List.getD_cons_succ, List.getD_cons_succ]
        exact ih i' j' (by omega)

theorem firstMarkerIdx_lt : ∀ (lines : List (List Char)) (i : Nat),
    firstMarkerIdx lines = some i → i < lines.length := by
  intro lines
  induction lines with
  | nil => intro i h; simp [firstMarkerIdx] at h
  | cons l ls ih =>
    intro i h
    unfold firstMarkerIdx at h
    by_cases hl : markerCheck l
    · rw [if_pos hl] at h
      injection h with h'
      simp [← h']
    · rw [if_neg hl] at h
      cases hrec : firstMarkerIdx ls with
      | none => rw [hrec] at h; simp at h
      | some j =>
        rw [hrec] at h
        injection h with h'
        have := ih j hrec
        simp [← h']
        omega

theorem lastNonBlankIdx_lt : ∀ (lines : List (List Char)) (i : Nat),
    lastNonBlankIdx lines = some i → i < lines.length := by
  intro lines
  induction lines with
  | nil => intro i h; simp [lastNonBlankIdx] at h
  | cons l ls ih =>
    intro i h
    unfold lastNonBlankIdx at h
    cases hrec : lastNonBlankIdx ls with
    | some j =>
      rw [hrec] at h
      injection h with h'
      have := ih j hrec
      simp [← h']
      omega
    | none =>
      rw [hrec] at h
      by_cases hb : isBlank l
      · rw [if_pos hb] at h; simp at h
      · rw [if_neg hb] at h
        injection h with h'
        simp [← h']

theorem findTipIdx_lt {lines : List (List Char)} {i : Nat}
    (h : findTipIdx lines = some i) : i < lines.length := by
  unfold findTipIdx at h
  cases h1 : firstMarkerIdx lines with
  | some j =>
    rw [h1] at h
    injection h with h'
    exact h' ▸ firstMarkerIdx_lt lines j h1
  | none =>
    rw [h1] at h
    exact lastNonBlankIdx_lt lines i h

theorem firstMarkerIdx_none_of_all :
    ∀ lines : List (List Char),
      (∀ j, j < lines.length → markerCheck (lines.getD j []) = false) →
      firstMarkerIdx lines = none := by
  intro lines
  induction lines with
  | nil => intro _; rfl
  | cons l ls ih =>
    intro hall
    have h0 : markerCheck l = false := hall 0 (Nat.succ_pos _)
    unfold firstMarkerIdx
    rw [if_neg (by simp [h0])]
    rw [ih (fun j hj => by
      have := hall (j + 1) (by simpa using hj)
      rwa [List.getD_cons_succ] at this)]
    rfl

theorem firstMarkerIdx_none_all :
    ∀ lines : List (List Char), firstMarkerIdx lines = none →
      ∀ j, j < lines.length → markerCheck (lines.getD j []) = false := by
  intro lines
  induction lines with
  | nil => intro _ j hj; simp at hj
  | cons l ls ih =>
    intro h j hj
    unfold firstMarkerIdx at h
    by_cases hl : markerCheck l
    · rw [if_pos hl] at h; simp at h
    · rw [if_neg hl] at h
      have hls : firstMarkerIdx ls = none := by
        cases h' : firstMarkerIdx ls with
        | none => rfl
        | some k => rw [h'] at h; simp at h
      cases j with
      | zero => simpa using hl
      | succ j' =>
        rw [List.getD_cons_succ]
        exact ih hls j' (by simpa using hj)

theorem firstMarkerIdx_some_prefix :
    ∀ (lines : List (List Char)) (i : Nat), firstMarkerIdx lines = some i →
      ∀ j, j < i → markerCheck (lines.getD j []) = false := by
  intro lines
  induction lines with
  | nil => intro i h; simp [firstMarkerIdx] at h
  | cons l ls ih =>
    intro i h j hj
    unfold firstMarkerIdx at h
    by_cases hl : markerCheck l
    · rw [if_pos hl] at h
      injection h with h'
      omega
    · rw [if_neg hl] at h
      cases hrec : firstMarkerIdx ls with
      | none => rw [hrec] at h; simp at h
      | some k =>
        rw [hrec] at h
        injection h with h'
        have hki : k + 1 = i := by simpa using h'
        cases j with
        | zero => simpa using hl
        | succ j' =>
          rw [List.getD_cons_succ]
          exact ih k hrec j' (by omega)

theorem lastNonBlankIdx_none_all :
    ∀ lines : List (List Char), lastNonBlankIdx lines = none →
      ∀ j, j < lines.length → isBlank (lines.getD j []) = true := by
  intro lines
  induction lines with
  | nil => intro _ j hj; simp at hj
  | cons l ls ih =>
    intro h j hj
    unfold lastNonBlankIdx at h
    cases hrec : lastNonBlankIdx ls with
    | some k => rw [hrec] at h; simp at h
    | none =>
      rw [hrec] at h
      by_cases hb : isBlank l
      · cases j with
        | zero => simpa using hb
        | succ j' =>
          rw [List.getD_cons_succ]
          exact ih hrec j' (by simpa using hj)
      · rw [if_neg hb] at h; simp at h

theorem lastNonBlankIdx_getD :
    ∀ (lines : List (List Char)) (k : Nat), lastNonBlankIdx lines = some k →
      isBlank (lines.getD k []) = false := by
  intro lines
  induction lines with
  | nil => intro k h; simp [lastNonBlankIdx] at h
  | cons l ls ih =>
    intro k h
    unfold lastNonBlankIdx at h
    cases hrec : lastNonBlankIdx ls with
    | some j =>
      rw [hrec] at h
      injection h with h'
      cases k with
      | zero => omega
      | succ k' =>
        rw [List.getD_cons_succ]
        have hjk : j = k' := by omega
        exact ih k' (hjk ▸ hrec)
    | none =>
      rw [hrec] at h
      by_cases hb : isBlank l
      · rw [if_pos hb] at h; simp at h
      · rw [if_neg hb] at h
        injection h with h'
        cases k with
        | zero => simpa using hb
        | succ k' => omega

theorem lastNonBlankIdx_of_spec :
    ∀ (lines : List (List Char)) (i : Nat), i < lines.length →
      isBlank (lines.getD i []) = false →
      (∀ j, i < j → j < lines.length → isBlank (lines.getD j []) = true) →
      lastNonBlankIdx lines = some i := by
  intro lines
  induction lines with
  | nil => intro i h; simp at h
  | cons l ls ih =>
    intro i hi hnb hblank
    cases i with
    | zero =>
      have hall : ∀ j, j < ls.length → isBlank (ls.getD j []) = true := by
        intro j hj
        have := hblank (j + 1) (Nat.succ_pos _) (by simpa using hj)
        rwa [List.getD_cons_succ] at this
      have hnone : lastNonBlankIdx ls = none := by
        cases h' : lastNonBlankIdx ls with
        | none => rfl
        | some k =>
          exfalso
          have hk := lastNonBlankIdx_lt ls k h'
          have h1 := hall k hk
          have h2 := lastNonBlankIdx_getD ls k h'
          rw [h2] at h1
          exact absurd h1 (by simp)
      rw [List.getD_cons_zero] at hnb
      unfold lastNonBlankIdx
      rw [hnone]
      show (if isBlank l = true then none else some 0) = some 0
      rw [if_neg (by simp [hnb])]
    | succ i' =>
      have hrec : lastNonBlankIdx ls = some i' := by
        apply ih i' (by simpa using hi)
        · rwa [List.getD_cons_succ] at hnb
        · intro j hj1 hj2
          have := hblank (j + 1) (by omega) (by simpa using hj2)
          rwa [List.getD_cons_succ] at this
      unfold lastNonBlankIdx
      rw [hrec]

/-- Counterexample to claim C2 as stated: with body `"💡 tip\nhi"` (the tip
marker line is not the last non-blank line) and status line `"X"`, the first
replacement targets the marker line, but the second replacement — finding no
marker any more — targets the last non-blank line instead, so applying the
replacement twice differs from applying it once. -/
theorem replace_status_region_not_idempotent :
    replaceTipLine
        (replaceTipLine ['💡', ' ', 't', 'i', 'p', '\n', 'h', 'i'] ['X'])
        ['X'] ≠
      replaceTipLine ['💡', ' ', 't', 'i', 'p', '\n', 'h', 'i'] ['X'] := by
  decide

/-- Regime (1) of the amended C2 as a standalone lemma: a marker-bearing
single-line status line is idempotent for every body. -/
theorem replace_marker_idem (body L : List Char)
    (hm : markerCheck L = true) (hnl : '\n' ∉ L) :
    replaceTipLine (replaceTipLine body L) L = replaceTipLine body L := by
  have hfree : ∀ l ∈ splitOnNL body, '\n' ∉ l := mem_splitOnNL_no_nl body
  have hne : splitOnNL body ≠ [] := splitOnNL_ne_nil body
  cases hidx : findTipIdx (splitOnNL body) with
  | some i =>
    have hrw1 : replaceTipLines (splitOnNL body) L = (splitOnNL body).set i L := by
      unfold replaceTipLines
      rw [hidx]
    have hfm : firstMarkerIdx ((splitOnNL body).set i L) = some i := by
      unfold findTipIdx at hidx
      cases h1 : firstMarkerIdx (splitOnNL body) with
      | some j =>
        rw [h1] at hidx
        obtain rfl : i = j := by simpa using hidx.symm
        exact firstMarkerIdx_set_self hm _ _ h1
      | none =>
        rw [h1] at hidx
        exact firstMarkerIdx_none_set hm _ _ h1 hidx
    have hroundtrip : splitOnNL (joinNL ((splitOnNL body).set i L)) =
        (splitOnNL body).set i L := by
      apply splitOnNL_joinNL
      · intro h
        have h0 := congrArg List.length h
        simp at h0
        exact hne h0
      · intro l hl
        rcases List.mem_or_eq_of_mem_set hl with h1 | h1
        · exact hfree l h1
        · exact h1 ▸ hnl
    have hft : findTipIdx ((splitOnNL body).set i L) = some i := by
      unfold findTipIdx
      rw [hfm]
    have hrw2 : replaceTipLines ((splitOnNL body).set i L) L =
        (splitOnNL body).set i L := by
      unfold replaceTipLines
      rw [hft]
      show ((splitOnNL body).set i L).set i L = (splitOnNL body).set i L
      rw [List.set_set]
    unfold replaceTipLine
    rw [hrw1, hroundtrip, hrw2]
  | none =>
    have hrw1 : replaceTipLines (splitOnNL body) L = splitOnNL body ++ [L] := by
      unfold replaceTipLines
      rw [hidx]
    have h1 : firstMarkerIdx (splitOnNL body) = none := by
      unfold findTipIdx at hidx
      cases h' : firstMarkerIdx (splitOnNL body) with
      | none => rfl
      | some j => rw [h'] at hidx; simp at hidx
    have hfm : firstMarkerIdx (splitOnNL body ++ [L]) =
        some (splitOnNL body).length := firstMarkerIdx_append_marker hm _ h1
    have hroundtrip : splitOnNL (joinNL (splitOnNL body ++ [L])) =
        splitOnNL body ++ [L] := by
      apply splitOnNL_joinNL
      · simp
      · intro l hl
        rcases List.mem_append.1 hl with h2 | h2
        · exact hfree l h2
        · simp at h2
          exact h2 ▸ hnl
    have hft : findTipIdx (splitOnNL body ++ [L]) =
        some (splitOnNL body).length := by
      unfold findTipIdx
      rw [hfm]
    have hrw2 : replaceTipLines (splitOnNL body ++ [L]) L =
        splitOnNL body ++ [L] := by
      unfold replaceTipLines
      rw [hft]
      show (splitOnNL body ++ [L]).set (splitOnNL body).length L =
        splitOnNL body ++ [L]
      exact set_append_singleton _ _
    unfold replaceTipLine
    rw [hrw1, hroundtrip, hrw2]

/-- Regime (2) of the amended C2: a single-line, non-blank, marker-free
status line is idempotent when only blank lines follow the located status
region. -/
theorem replace_trailing_idem (body L : List Char) (hnl : '\n' ∉ L)
    (hm : markerCheck L = false) (hLb : isBlank L = false)
    (htrail : ∀ i, findTipIdx (splitOnNL body) = some i →
      ∀ j, i < j → j < (splitOnNL body).length →
        isBlank ((splitOnNL body).getD j []) = true) :
    replaceTipLine (replaceTipLine body L) L = replaceTipLine body L := by
  have hfree : ∀ l ∈ splitOnNL body, '\n' ∉ l := mem_splitOnNL_no_nl body
  have hne : splitOnNL body ≠ [] := splitOnNL_ne_nil body
  cases hidx : findTipIdx (splitOnNL body) with
  | some i =>
    have htr := htrail i hidx
    have hi : i < (splitOnNL body).length := findTipIdx_lt hidx
    have hrw1 : replaceTipLines (splitOnNL body) L =
        (splitOnNL body).set i L := by
      unfold replaceTipLines
      rw [hidx]
    have hmark' : ∀ j, j < ((splitOnNL body).set i L).length →
        markerCheck (((splitOnNL body).set i L).getD j []) = false := by
      intro j hj
      rw [List.length_set] at hj
      by_cases hji : j = i
      · subst hji
        rw [set_getD_self ([] : List Char) L (splitOnNL body) j hj]
        exact hm
      · rw [set_getD_ne ([] : List Char) L (splitOnNL body) i j
          (fun he => hji he.symm)]
        by_cases hlt : j < i
        · unfold findTipIdx at hidx
          cases h1 : firstMarkerIdx (splitOnNL body) with
          | some k =>
            rw [h1] at hidx
            injection hidx with h2
            exact firstMarkerIdx_some_prefix _ k h1 j (by omega)
          | none =>
            exact firstMarkerIdx_none_all _ h1 j hj
        · have hb := htr j (by omega) hj
          cases hmc : markerCheck ((splitOnNL body).getD j []) with
          | false => rfl
          | true =>
            have hnb := marker_not_blank hmc
            rw [hnb] at hb
            exact absurd hb (by simp)
    have hfm' : firstMarkerIdx ((splitOnNL body).set i L) = none :=
      firstMarkerIdx_none_of_all _ hmark'
    have hlnb' : lastNonBlankIdx ((splitOnNL body).set i L) = some i := by
      apply lastNonBlankIdx_of_spec
      · rw [List.length_set]
        exact hi
      · rw [set_getD_self ([] : List Char) L (splitOnNL body) i hi]
        exact hLb
      · intro j hj1 hj2
        rw [List.length_set] at hj2
        rw [set_getD_ne ([] : List Char) L (splitOnNL body) i j (by omega)]
        exact htr j hj1 hj2
    have hft : findTipIdx ((splitOnNL body).set i L) = some i := by
      unfold findTipIdx
      rw [hfm']
      exact hlnb'
    have hroundtrip : splitOnNL (joinNL ((splitOnNL body).set i L)) =
        (splitOnNL body).set i L := by
      apply splitOnNL_joinNL
      · intro h
        have h0 := congrArg List.length h
        simp at h0
        exact hne h0
      · intro l hl
        rcases List.mem_or_eq_of_mem_set hl with h1 | h1
        · exact hfree l h1
        · exact h1 ▸ hnl
    have hrw2 : replaceTipLines ((splitOnNL body).set i L) L =
        (splitOnNL body).set i L := by
      unfold replaceTipLines
      rw [hft]
      show ((splitOnNL body).set i L).set i L = (splitOnNL body).set i L
      rw [List.set_set]
    unfold replaceTipLine
    rw [hrw1, hroundtrip, hrw2]
  | none =>
    have h1 : firstMarkerIdx (splitOnNL body) = none := by
      unfold findTipIdx at hidx
      cases h' : firstMarkerIdx (splitOnNL body) with
      | none => rfl
      | some j => rw [h'] at hidx; simp at hidx
    have hrw1 : replaceTipLines (splitOnNL body) L =
        splitOnNL body ++ [L] := by
      unfold replaceTipLines
      rw [hidx]
    have hgetL : (splitOnNL body ++ [L]).getD (splitOnNL body).length [] = L := by
      rw [List.getD_append_right _ _ _ _ le_rfl]
      simp
    have hmark' : ∀ j, j < (splitOnNL body ++ [L]).length →
        markerCheck ((splitOnNL body ++ [L]).getD j []) = false := by
      intro j hj
      simp at hj
      by_cases hjl : j < (splitOnNL body).length
      · rw [List.getD_append _ _ _ _ hjl]
        exact firstMarkerIdx_none_all _ h1 j hjl
      · have hje : j = (splitOnNL body).length := by omega
        subst hje
        rw [hgetL]
        exact hm
    have hfm' : firstMarkerIdx (splitOnNL body ++ [L]) = none :=
      firstMarkerIdx_none_of_all _ hmark'
    have hlnb' : lastNonBlankIdx (splitOnNL body ++ [L]) =
        some (splitOnNL body).length := by
      apply lastNonBlankIdx_of_spec
      · simp
      · rw [hgetL]
        exact hLb
      · intro j hj1 hj2
        simp at hj2
        exact absurd hj2 (by omega)
    have hft : findTipIdx (splitOnNL body ++ [L]) =
        some (splitOnNL body).length := by
      unfold findTipIdx
      rw [hfm']
      exact hlnb'
    have hroundtrip : splitOnNL (joinNL (splitOnNL body ++ [L])) =
        splitOnNL body ++ [L] := by
      apply splitOnNL_joinNL
      · simp
      · intro l hl
        rcases List.mem_append.1 hl with h2 | h2
        · exact hfree l h2
        · simp at h2
          exact h2 ▸ hnl
    have hrw2 : replaceTipLines (splitOnNL body ++ [L]) L =
        splitOnNL body ++ [L] := by
      unfold replaceTipLines
      rw [hft]
      show (splitOnNL body ++ [L]).set (splitOnNL body).length L =
        splitOnNL body ++ [L]
      exact set_append_singleton _ _
    unfold replaceTipLine
    rw [hrw1, hroundtrip, hrw2]

/-- Claim C2, amended: the status-region replacement is idempotent in two
regimes, not universally. (1) When the new status line is a single line
(no embedded newline) containing the tip marker (`"💡"` and `"tip"`),
idempotence holds for every body. (2) When the new status line is a single
non-blank marker-free line — the kind the animation actually writes —
idempotence holds provided the located status region is the last non-blank
line of the body (only blank lines after it), the conventional message
layout. Outside these regimes it can fail (see the counterexample). -/
theorem replace_status_region_idempotent (body L : List Char)
    (hnl : '\n' ∉ L) :
    (markerCheck L = true →
      replaceTipLine (replaceTipLine body L) L = replaceTipLine body L) ∧
    (markerCheck L = false → isBlank L = false →
      (∀ i, findTipIdx (splitOnNL body) = some i →
        ∀ j, i < j → j < (splitOnNL body).length →
          isBlank ((splitOnNL body).getD j []) = true) →
      replaceTipLine (replaceTipLine body L) L = replaceTipLine body L) :=
  ⟨fun hm => replace_marker_idem body L hm hnl,
   fun hm hLb htrail => replace_trailing_idem body L hnl hm hLb htrail⟩

/-- Witness for the amended C2: regime (1) with a marker-bearing status
line, and regime (2) with the marker-free status line `"X"` replacing a
trailing tip line. -/
theorem replace_status_region_idempotent_witness :
    (replaceTipLine
        (replaceTipLine ['a', '\n', '💡', ' ', 't', 'i', 'p']
          ['💡', ' ', 't', 'i', 'p', '!'])
        ['💡', ' ', 't', 'i', 'p', '!'] =
      replaceTipLine ['a', '\n', '💡', ' ', 't', 'i', 'p']
        ['💡', ' ', 't', 'i', 'p', '!']) ∧
    (replaceTipLine
        (replaceTipLine ['h', 'i', '\n', '💡', ' ', 't', 'i', 'p'] ['X'])
        ['X'] =
      replaceTipLine ['h', 'i', '\n', '💡', ' ', 't', 'i', 'p'] ['X']) :=
  ⟨(replace_status_region_idempotent ['a', '\n', '💡', ' ', 't', 'i', 'p']
      ['💡', ' ', 't', 'i', 'p', '!'] (by decide)).1 (by decide),
   (replace_status_region_idempotent ['h', 'i', '\n', '💡', ' ', 't', 'i', 'p']
      ['X'] (by decide)).2 (by decide) (by decide)
      (by
        intro i hi j hj1 hj2
        have hfi : findTipIdx
            (splitOnNL ['h', 'i', '\n', '💡', ' ', 't', 'i', 'p']) = some 1 := by
          decide
        rw [hfi] at hi
        injection hi with hi'
        have hlen : (splitOnNL ['h', 'i', '\n', '💡', ' ', 't', 'i', 'p']).length
            = 2 := by decide
        rw [hlen] at hj2
        exact absurd hj2 (by omega))⟩

/-! ### Paginator (`src/handlers/readme.py`, `_paginate_text`).

Python's `remaining.rfind(sub, 0, truncate_at)` returns the largest `i`
with `i + len(sub) <= truncate_at` at which `sub` occurs, else `-1`.
The float comparison `last_x > page_size * 0.7` is modelled exactly as the
rational inequality `10 * last_x > 7 * page_size`. -/

/-- Countdown search for the rightmost occurrence of `sub` in `s` that ends
at or before position `e`, trying indices `n-1, n-2, ..., 0`. -/
def rfindFrom (s sub : List Char) (e : Nat) : Nat → Option Nat
  | 0 => none
  | i + 1 =>
    if i + sub.length ≤ e && sub.isPrefixOf (s.drop i) then some i
    else rfindFrom s sub e i

/-- Python `s.rfind(sub, 0, e)`, `none` for `-1`. -/
def rfindSub (s sub : List Char) (e : Nat) : Option Nat := rfindFrom s sub e e

/-- Python `s.rfind(sub, 0, e)` with the `-1` sentinel kept as an `Int`,
as the source compares it directly against `page_size * 0.7`. -/
def rfindSubI (s sub : List Char) (e : Nat) : Int :=
  match rfindSub s sub e with
  | some i => (i : Int)
  | none => -1

/-- The split-point cascade of `_paginate_text` (lines 216-243): paragraph
break, line break, sentence end, word boundary — each only past 70% of
`page_size` — else a hard cut at `page_size`. -/
def bestSplit (remaining : List Char) (pageSize : Nat) : Nat :=
  let lastParagraph := rfindSubI remaining ['\n', '\n'] pageSize
  if 7 * (pageSize : Int) < 10 * lastParagraph then (lastParagraph + 2).toNat
  else
    let lastLine := rfindSubI remaining ['\n'] pageSize
    if 7 * (pageSize : Int) < 10 * lastLine then (lastLine + 1).toNat
    else
      let lastSentence :=
        max (rfindSubI remaining ['.', ' '] pageSize)
          (max (rfindSubI remaining ['!', ' '] pageSize)
            (rfindSubI remaining ['?', ' '] pageSize))
      if 7 * (pageSize : Int) < 10 * lastSentence then (lastSentence + 2).toNat
      else
        let lastSpace := rfindSubI remaining [' '] pageSize
        if 7 * (pageSize : Int) < 10 * lastSpace then (lastSpace + 1).toNat
        else pageSize

/-- The `while remaining:` loop of `_paginate_text` (lines 211-247); the
fuel argument bounds the iteration count (each iteration removes at least
one character when `pageSize ≥ 1`). -/
def paginateAux (pageSize : Nat) : Nat → List Char → List (List Char)
  | 0, _ => []
  | fuel + 1, remaining =>
    if remaining.isEmpty then []
    else if remaining.length ≤ pageSize then [remaining]
    else
      rstrip (remaining.take (bestSplit remaining pageSize)) ::
        paginateAux pageSize fuel
          (lstrip (remaining.drop (bestSplit remaining pageSize)))

/-- `_paginate_text(text, page_size)` (lines 203-249). -/
def paginate (text : List Char) (pageSize : Nat) : List (List Char) :=
  if text.isEmpty then [[]]
  else
    let pages := paginateAux pageSize text.length text
    if pages.isEmpty then [[]] else pages

theorem rfindFrom_some (s sub : List Char) (e : Nat) :
    ∀ n i, rfindFrom s sub e n = some i →
      i < n ∧ i + sub.length ≤ e ∧ sub.isPrefixOf (s.drop i) = true ∧
      ∀ j, i < j → j < n → j + sub.length ≤ e →
        sub.isPrefixOf (s.drop j) = false := by
  intro n
  induction n with
  | zero => intro i h; simp [rfindFrom] at h
  | succ m ih =>
    intro i h
    unfold rfindFrom at h
    by_cases hc : (decide (m + sub.length ≤ e) && sub.isPrefixOf (s.drop m)) = true
    · rw [if_pos hc] at h
      injection h with h'
      subst h'
      rw [Bool.and_eq_true, decide_eq_true_eq] at hc
      refine ⟨by omega, hc.1, hc.2, ?_⟩
      intro j h1 h2 _
      exact absurd h2 (by omega)
    · rw [if_neg hc] at h
      obtain ⟨h1, h2, h3, h4⟩ := ih i h
      refine ⟨by omega, h2, h3, ?_⟩
      intro j hj1 hj2 hj3
      by_cases hjm : j = m
      · subst hjm
        cases hp : sub.isPrefixOf (s.drop j) with
        | false => rfl
        | true =>
          exact absurd (by simp only [Bool.and_eq_true, decide_eq_true_eq]; exact ⟨hj3, hp⟩) hc
      · exact h4 j hj1 (by omega) hj3

theorem rfindFrom_none (s sub : List Char) (e : Nat) :
    ∀ n, rfindFrom s sub e n = none →
      ∀ j, j < n → j + sub.length ≤ e → sub.isPrefixOf (s.drop j) = false := by
  intro n
  induction n with
  | zero => intro _ j hj; omega
  | succ m ih =>
    intro h j hj1 hj2
    unfold rfindFrom at h
    by_cases hc : (decide (m + sub.length ≤ e) && sub.isPrefixOf (s.drop m)) = true
    · rw [if_pos hc] at h; simp at h
    · rw [if_neg hc] at h
      by_cases hjm : j = m
      · subst hjm
        cases hp : sub.isPrefixOf (s.drop j) with
        | false => rfl
        | true =>
          exact absurd (by simp only [Bool.and_eq_true, decide_eq_true_eq]; exact ⟨hj2, hp⟩) hc
      · exact ih h j (by omega) hj2

/-- Characters surviving a strip: `filter nonWS` is unchanged by
`dropWhile isPySpace`. -/
theorem filter_dropWhile_pySpace (l : List Char) :
    (l.dropWhile isPySpace).filter (fun c => !isPySpace c) =
      l.filter (fun c => !isPySpace c) := by
  induction l with
  | nil => rfl
  | cons c rest ih =>
    by_cases hc : isPySpace c
    · rw [List.dropWhile_cons_of_pos hc, ih, List.filter_cons]
      simp [hc]
    · rw [List.dropWhile_cons_of_neg hc]

theorem filter_lstrip (l : List Char) :
    (lstrip l).filter (fun c => !isPySpace c) =
      l.filter (fun c => !isPySpace c) :=
  filter_dropWhile_pySpace l

theorem filter_rstrip (l : List Char) :
    (rstrip l).filter (fun c => !isPySpace c) =
      l.filter (fun c => !isPySpace c) := by
  unfold rstrip
  rw [List.filter_reverse, filter_dropWhile_pySpace, List.filter_reverse,
    List.reverse_reverse]

theorem dropWhile_length_le (p : Char → Bool) (l : List Char) :
    (l.dropWhile p).length ≤ l.length := by
  induction l with
  | nil => simp
  | cons c rest ih =>
    by_cases hc : p c
    · rw [List.dropWhile_cons_of_pos hc]
      exact Nat.le_succ_of_le ih
    · rw [List.dropWhile_cons_of_neg hc]

theorem lstrip_length_le (l : List Char) : (lstrip l).length ≤ l.length :=
  dropWhile_length_le _ l

theorem rstrip_length_le (l : List Char) : (rstrip l).length ≤ l.length := by
  unfold rstrip
  rw [List.length_reverse]
  calc ((l.reverse).dropWhile isPySpace).length ≤ l.reverse.length :=
        dropWhile_length_le _ _
    _ = l.length := List.length_reverse _

theorem rfindSubI_le (rem sub : List Char) (e : Nat) (hsub : sub ≠ []) :
    rfindSubI rem sub e < e := by
  unfold rfindSubI
  cases h : rfindSub rem sub e with
  | none => simp; omega
  | some i =>
    obtain ⟨_, h2, _, _⟩ := rfindFrom_some rem sub e e i h
    have : 1 ≤ sub.length := List.length_pos.mpr hsub
    simp
    omega

theorem rfindSubI_add_le (rem sub : List Char) (e : Nat) (i : Nat)
    (h : rfindSubI rem sub e = (i : Int)) : i + sub.length ≤ e := by
  unfold rfindSubI at h
  cases h' : rfindSub rem sub e with
  | none => rw [h'] at h; simp at h
  | some j =>
    rw [h'] at h
    have hj : (j : Int) = (i : Int) := h
    obtain rfl : j = i := by exact_mod_cast hj
    exact (rfindFrom_some rem sub e e j h').2.1

/-- Every split point the cascade chooses is positive (when `pageSize ≥ 1`)
and at most `pageSize`. -/
theorem bestSplit_pos_le (rem : List Char) (ps : Nat) (hps : 1 ≤ ps) :
    1 ≤ bestSplit rem ps ∧ bestSplit rem ps ≤ ps := by
  unfold bestSplit
  set lp := rfindSubI rem ['\n', '\n'] ps with hlp
  by_cases h1 : 7 * (ps : Int) < 10 * lp
  · rw [if_pos h1]
    have hnn : 0 ≤ lp := by omega
    obtain ⟨i, hi⟩ : ∃ i : Nat, lp = (i : Int) := ⟨lp.toNat, by omega⟩
    have := rfindSubI_add_le rem ['\n', '\n'] ps i (hlp ▸ hi)
    simp at this
    omega
  · rw [if_neg h1]
    set ll := rfindSubI rem ['\n'] ps with hll
    by_cases h2 : 7 * (ps : Int) < 10 * ll
    · rw [if_pos h2]
      obtain ⟨i, hi⟩ : ∃ i : Nat, ll = (i : Int) := ⟨ll.toNat, by omega⟩
      have := rfindSubI_add_le rem ['\n'] ps i (hll ▸ hi)
      simp at this
      omega
    · rw [if_neg h2]
      set s1 := rfindSubI rem ['.', ' '] ps with hs1
      set s2 := rfindSubI rem ['!', ' '] ps with hs2
      set s3 := rfindSubI rem ['?', ' '] ps with hs3
      by_cases h3 : 7 * (ps : Int) < 10 * max s1 (max s2 s3)
      · rw [if_pos h3]
        have hcases : max s1 (max s2 s3) = s1 ∨ max s1 (max s2 s3) = s2 ∨
            max s1 (max s2 s3) = s3 := by
          rcases max_choice s1 (max s2 s3) with h | h
          · exact Or.inl h
          · rcases max_choice s2 s3 with h' | h'
            · exact Or.inr (Or.inl (h.trans h'))
            · exact Or.inr (Or.inr (h.trans h'))
        rcases hcases with hv | hv | hv
        · rw [hv] at h3 ⊢
          obtain ⟨i, hi⟩ : ∃ i : Nat, s1 = (i : Int) := ⟨s1.toNat, by omega⟩
          have := rfindSubI_add_le rem ['.', ' '] ps i (hs1 ▸ hi)
          simp at this
          omega
        · rw [hv] at h3 ⊢
          obtain ⟨i, hi⟩ : ∃ i : Nat, s2 = (i : Int) := ⟨s2.toNat, by omega⟩
          have := rfindSubI_add_le rem ['!', ' '] ps i (hs2 ▸ hi)
          simp at this
          omega
        · rw [hv] at h3 ⊢
          obtain ⟨i, hi⟩ : ∃ i : Nat, s3 = (i : Int) := ⟨s3.toNat, by omega⟩
          have := rfindSubI_add_le rem ['?', ' '] ps i (hs3 ▸ hi)
          simp at this
          omega
      · rw [if_neg h3]
        set lw := rfindSubI rem [' '] ps with hlw
        by_cases h4 : 7 * (ps : Int) < 10 * lw
        · rw [if_pos h4]
          obtain ⟨i, hi⟩ : ∃ i : Nat, lw = (i : Int) := ⟨lw.toNat, by omega⟩
          have := rfindSubI_add_le rem [' '] ps i (hlw ▸ hi)
          simp at this
          omega
        · rw [if_neg h4]
          omega

theorem paginateAux_ne_nil (ps : Nat) (fuel : Nat) (rem : List Char)
    (hfuel : 1 ≤ fuel) (hrem : rem ≠ []) : paginateAux ps fuel rem ≠ [] := by
  cases fuel with
  | zero => omega
  | succ f =>
    unfold paginateAux
    rw [if_neg (by simpa using hrem)]
    by_cases hle : rem.length ≤ ps
    · rw [if_pos hle]; simp
    · rw [if_neg hle]; simp

theorem paginateAux_join_filter (ps : Nat) (hps : 1 ≤ ps) :
    ∀ fuel rem, rem.length ≤ fuel →
      ((paginateAux ps fuel rem).flatten).filter (fun c => !isPySpace c) =
        rem.filter (fun c => !isPySpace c) := by
  intro fuel
  induction fuel with
  | zero =>
    intro rem hlen
    have h0 : rem = [] := List.eq_nil_of_length_eq_zero (by omega)
    subst h0; rfl
  | succ f ih =>
    intro rem hlen
    unfold paginateAux
    by_cases hempty : rem.isEmpty = true
    · rw [if_pos hempty]
      have h0 : rem = [] := by simpa using hempty
      subst h0; rfl
    · rw [if_neg hempty]
      by_cases hle : rem.length ≤ ps
      · rw [if_pos hle]; simp
      · rw [if_neg hle]
        obtain ⟨hpos, _⟩ := bestSplit_pos_le rem ps hps
        rw [List.flatten_cons, List.filter_append, filter_rstrip,
          ih (lstrip (rem.drop (bestSplit rem ps))) ?_, filter_lstrip,
          ← List.filter_append, List.take_append_drop]
        calc (lstrip (rem.drop (bestSplit rem ps))).length
            ≤ (rem.drop (bestSplit rem ps)).length := lstrip_length_le _
          _ = rem.length - bestSplit rem ps := by simp
          _ ≤ f := by omega

/-- Claim C4: pagination always returns at least one page (a single empty
page for the empty text), and concatenating the pages preserves exactly the
non-whitespace characters of the input in order — only whitespace at page
boundaries is normalized (trimmed). -/
theorem pagination_coverage (text : List Char) (ps : Nat) (hps : 0 < ps) :
    1 ≤ (paginate text ps).length ∧
    paginate [] ps = [[]] ∧
    ((paginate text ps).flatten).filter (fun c => !isPySpace c) =
      text.filter (fun c => !isPySpace c) := by
  refine ⟨?_, rfl, ?_⟩
  · unfold paginate
    by_cases h : text.isEmpty = true
    · rw [if_pos h]; simp
    · rw [if_neg h]
      by_cases h2 : (paginateAux ps text.length text).isEmpty = true
      · rw [if_pos h2]; simp
      · rw [if_neg h2]
        cases hp : paginateAux ps text.length text with
        | nil => rw [hp] at h2; simp at h2
        | cons a l => simp
  · unfold paginate
    by_cases h : text.isEmpty = true
    · rw [if_pos h]
      have h0 : text = [] := by simpa using h
      subst h0; rfl
    · rw [if_neg h]
      have hne : text ≠ [] := by simpa using h
      have hlen : 1 ≤ text.length := List.length_pos.mpr hne
      have hnn : paginateAux ps text.length text ≠ [] :=
        paginateAux_ne_nil ps text.length text hlen hne
      rw [if_neg (by simpa using hnn)]
      exact paginateAux_join_filter ps hps text.length text le_rfl

/-- Witness for C4 at a concrete text and page size. -/
theorem pagination_coverage_witness :
    1 ≤ (paginate ['h', 'i', ' ', 'y', 'o'] 3).length ∧
    paginate [] 3 = [[]] ∧
    ((paginate ['h', 'i', ' ', 'y', 'o'] 3).flatten).filter
        (fun c => !isPySpace c) =
      (['h', 'i', ' ', 'y', 'o'] : List Char).filter (fun c => !isPySpace c) :=
  pagination_coverage ['h', 'i', ' ', 'y', 'o'] 3 (by decide)

theorem paginateAux_page_le (ps : Nat) (hps : 1 ≤ ps) :
    ∀ fuel rem p, p ∈ paginateAux ps fuel rem → p.length ≤ ps := by
  intro fuel
  induction fuel with
  | zero => intro rem p hp; simp [paginateAux] at hp
  | succ f ih =>
    intro rem p hp
    unfold paginateAux at hp
    by_cases hempty : rem.isEmpty = true
    · rw [if_pos hempty] at hp; simp at hp
    · rw [if_neg hempty] at hp
      by_cases hle : rem.length ≤ ps
      · rw [if_pos hle] at hp
        simp at hp
        subst hp
        exact hle
      · rw [if_neg hle] at hp
        rcases List.mem_cons.1 hp with h | h
        · subst h
          calc (rstrip (rem.take (bestSplit rem ps))).length
              ≤ (rem.take (bestSplit rem ps)).length := rstrip_length_le _
            _ ≤ bestSplit rem ps := by simp
            _ ≤ ps := (bestSplit_pos_le rem ps hps).2
        · exact ih _ p h

/-- Claim C5: every page produced by the paginator has length at most
`page_size`. (This holds with no exception: an over-long unsplittable token
is hard-cut at exactly `page_size`, so the exceptional case the claim
allows for never produces an oversized page.) -/
theorem pagination_bound (text : List Char) (ps : Nat) (hps : 0 < ps) :
    ∀ p ∈ paginate text ps, p.length ≤ ps := by
  intro p hp
  unfold paginate at hp
  by_cases h : text.isEmpty = true
  · rw [if_pos h] at hp
    simp at hp
    subst hp
    simp
  · rw [if_neg h] at hp
    by_cases h2 : (paginateAux ps text.length text).isEmpty = true
    · rw [if_pos h2] at hp
      simp at hp
      subst hp
      simp
    · rw [if_neg h2] at hp
      exact paginateAux_page_le ps hps text.length text p hp

/-- Witness for C5: a concrete page of a concrete pagination. -/
theorem pagination_bound_witness :
    (['a', 'b', 'c'] : List Char).length ≤ 3 :=
  pagination_bound ['a', 'b', 'c', 'd', 'e'] 3 (by decide) ['a', 'b', 'c']
    (by decide)

/-! ### The split-point cascade, stated declaratively (claim C6). -/

/-- `sub` occurs in `s` at position `i`. -/
def matchesAt (s sub : List Char) (i : Nat) : Bool := sub.isPrefixOf (s.drop i)

/-- `i` is the rightmost occurrence of `sub` that fits inside the search
window `[0, e)` (Python `s.rfind(sub, 0, e)` returning `i ≥ 0`). -/
def LastMatchBefore (s sub : List Char) (e i : Nat) : Prop :=
  i + sub.length ≤ e ∧ matchesAt s sub i = true ∧
  ∀ j, j < e → i < j → j + sub.length ≤ e → matchesAt s sub j = false

/-- No occurrence of `sub` inside the window lies past 70% of the window. -/
def NoQualMatch (s sub : List Char) (e : Nat) : Prop :=
  ∀ i, i < e → i + sub.length ≤ e → matchesAt s sub i = true →
    10 * (i : Int) ≤ 7 * (e : Int)

/-- The three sentence-ending patterns `". "`, `"! "`, `"? "`. -/
def sentenceSubs : List (List Char) := [['.', ' '], ['!', ' '], ['?', ' ']]

/-- `i` is the rightmost position in the window at which any
sentence-ending pattern occurs. -/
def LastSentenceMatch (s : List Char) (e i : Nat) : Prop :=
  (∃ sub ∈ sentenceSubs, i + 2 ≤ e ∧ matchesAt s sub i = true) ∧
  ∀ j, j < e → i < j → j + 2 ≤ e → ∀ sub ∈ sentenceSubs, matchesAt s sub j = false

/-- No sentence-ending occurrence inside the window lies past 70% of it. -/
def NoQualSentence (s : List Char) (e : Nat) : Prop :=
  ∀ i, i < e → i + 2 ≤ e → (∃ sub ∈ sentenceSubs, matchesAt s sub i = true) →
    10 * (i : Int) ≤ 7 * (e : Int)

instance (s sub : List Char) (e i : Nat) :
    Decidable (LastMatchBefore s sub e i) := by
  unfold LastMatchBefore
  infer_instance

instance (s sub : List Char) (e : Nat) : Decidable (NoQualMatch s sub e) := by
  unfold NoQualMatch
  infer_instance

instance (s : List Char) (e i : Nat) :
    Decidable (LastSentenceMatch s e i) := by
  unfold LastSentenceMatch
  infer_instance

instance (s : List Char) (e : Nat) : Decidable (NoQualSentence s e) := by
  unfold NoQualSentence
  infer_instance

theorem sentenceSubs_length {sub : List Char} (h : sub ∈ sentenceSubs) :
    sub.length = 2 := by
  fin_cases h <;> rfl

theorem rfindSubI_eq_of_lastMatch (s sub : List Char) (e i : Nat)
    (hsub : sub ≠ []) (h : LastMatchBefore s sub e i) :
    rfindSubI s sub e = (i : Int) := by
  obtain ⟨h1, h2, h3⟩ := h
  have hsl : 1 ≤ sub.length := List.length_pos.mpr hsub
  unfold matchesAt at h2
  unfold rfindSubI
  cases hr : rfindSub s sub e with
  | none =>
    have hno := rfindFrom_none s sub e e hr i (by omega) h1
    rw [hno] at h2
    exact absurd h2 (by simp)
  | some j =>
    obtain ⟨hj1, hj2, hj3, hj4⟩ := rfindFrom_some s sub e e j hr
    have hij : j = i := by
      rcases Nat.lt_trichotomy j i with hlt | heq | hgt
      · have := hj4 i hlt (by omega) h1
        rw [this] at h2
        exact absurd h2 (by simp)
      · exact heq
      · have := h3 j hj1 hgt hj2
        unfold matchesAt at this
        rw [this] at hj3
        exact absurd hj3 (by simp)
    simp [hij]

theorem rfindSubI_le_of_noQual (s sub : List Char) (e : Nat)
    (hsub : sub ≠ []) (h : NoQualMatch s sub e) :
    10 * rfindSubI s sub e ≤ 7 * (e : Int) := by
  have hsl : 1 ≤ sub.length := List.length_pos.mpr hsub
  unfold rfindSubI
  cases hr : rfindSub s sub e with
  | none => simp; omega
  | some j =>
    obtain ⟨hj1, hj2, hj3, _⟩ := rfindFrom_some s sub e e j hr
    exact h j (by omega) hj2 hj3

theorem rfindSubI_sentence_le (s : List Char) (e : Nat) {sub : List Char}
    (hmem : sub ∈ sentenceSubs) (h : NoQualSentence s e) :
    10 * rfindSubI s sub e ≤ 7 * (e : Int) := by
  have hsl : sub.length = 2 := sentenceSubs_length hmem
  unfold rfindSubI
  cases hr : rfindSub s sub e with
  | none => simp; omega
  | some j =>
    obtain ⟨hj1, hj2, hj3, _⟩ := rfindFrom_some s sub e e j hr
    exact h j (by omega) (by omega) ⟨sub, hmem, hj3⟩

theorem sentenceMax_eq (s : List Char) (e i : Nat)
    (h : LastSentenceMatch s e i) :
    max (rfindSubI s ['.', ' '] e)
      (max (rfindSubI s ['!', ' '] e) (rfindSubI s ['?', ' '] e)) = (i : Int) := by
  obtain ⟨⟨sub₀, hmem₀, hle₀, hmatch₀⟩, hmax⟩ := h
  have hub : ∀ sub, sub ∈ sentenceSubs → rfindSubI s sub e ≤ (i : Int) := by
    intro sub hmem
    have hsl : sub.length = 2 := sentenceSubs_length hmem
    unfold rfindSubI
    cases hr : rfindSub s sub e with
    | none => simp; omega
    | some j =>
      obtain ⟨hj1, hj2, hj3, _⟩ := rfindFrom_some s sub e e j hr
      by_contra hgt
      push_neg at hgt
      have hij : i < j := by exact_mod_cast hgt
      have := hmax j (by omega) hij (by omega) sub hmem
      unfold matchesAt at this
      rw [this] at hj3
      exact absurd hj3 (by simp)
  have hlb : (i : Int) ≤ rfindSubI s sub₀ e := by
    have hsl : sub₀.length = 2 := sentenceSubs_length hmem₀
    unfold matchesAt at hmatch₀
    unfold rfindSubI
    cases hr : rfindSub s sub₀ e with
    | none =>
      have := rfindFrom_none s sub₀ e e hr i (by omega) (by omega)
      rw [this] at hmatch₀
      exact absurd hmatch₀ (by simp)
    | some j =>
      obtain ⟨hj1, hj2, hj3, hj4⟩ := rfindFrom_some s sub₀ e e j hr
      by_contra hgt
      push_neg at hgt
      have hij : j < i := by exact_mod_cast hgt
      have := hj4 i hij (by omega) (by omega)
      rw [this] at hmatch₀
      exact absurd hmatch₀ (by simp)
  have h1 : rfindSubI s ['.', ' '] e ≤ (i : Int) := hub _ (by simp [sentenceSubs])
  have h2 : rfindSubI s ['!', ' '] e ≤ (i : Int) := hub _ (by simp [sentenceSubs])
  have h3 : rfindSubI s ['?', ' '] e ≤ (i : Int) := hub _ (by simp [sentenceSubs])
  have hup : max (rfindSubI s ['.', ' '] e)
      (max (rfindSubI s ['!', ' '] e) (rfindSubI s ['?', ' '] e)) ≤ (i : Int) :=
    max_le h1 (max_le h2 h3)
  have hdown : (i : Int) ≤ max (rfindSubI s ['.', ' '] e)
      (max (rfindSubI s ['!', ' '] e) (rfindSubI s ['?', ' '] e)) := by
    have hmem := hmem₀
    fin_cases hmem
    · exact le_trans hlb (le_max_left _ _)
    · exact le_trans hlb (le_trans (le_max_left _ _) (le_max_right _ _))
    · exact le_trans hlb (le_trans (le_max_right _ _) (le_max_right _ _))
  omega

/-- Modelled from claim C6's literal wording: a paragraph break is used only
when found past 70% of `page_size`, but the fallbacks (line break, sentence
end, whitespace) are used whenever they exist at all, with a hard cut only
when none exists. -/
def claimSplit (remaining : List Char) (pageSize : Nat) : Nat :=
  let lastParagraph := rfindSubI remaining ['\n', '\n'] pageSize
  if 7 * (pageSize : Int) < 10 * lastParagraph then (lastParagraph + 2).toNat
  else
    match rfindSub remaining ['\n'] pageSize with
    | some i => i + 1
    | none =>
      let lastSentence :=
        max (rfindSubI remaining ['.', ' '] pageSize)
          (max (rfindSubI remaining ['!', ' '] pageSize)
            (rfindSubI remaining ['?', ' '] pageSize))
      if 0 ≤ lastSentence then (lastSentence + 2).toNat
      else
        match rfindSub remaining [' '] pageSize with
        | some i => i + 1
        | none => pageSize

/-- `PAGE_SIZE = 3000` (readme.py line 12). -/
def PAGE_SIZE : Nat := 3000

structure ReadmePageView where
  storedPage : Int
  content : List Char
  totalPages : Nat

/-- `_display_readme_page` (lines 141-159): paginate the cached blob,
clamp the requested page with `max(0, min(page, total_pages - 1))`, store
the clamped page back, and index the page list. -/
def displayReadmePage (fullReadme : List Char) (page : Int) : ReadmePageView :=
  let pages := paginate fullReadme PAGE_SIZE
  let totalPages := pages.length
  let p := max 0 (min page ((totalPages : Int) - 1))
  { storedPage := p
    content := pages.getD p.toNat []
    totalPages := totalPages }

inductive ReadmeNavData
  | next
  | prev
  | jumpTo (n : Int)
  | other

/-- `handle_readme_navigation` (lines 127-135): the requested page before
clamping — `readme_next`/`readme_prev` increment/decrement, `readme_page_n`
jumps, anything else keeps the current page. -/
def navTarget : ReadmeNavData → Int → Int
  | .next, cur => cur + 1
  | .prev, cur => cur - 1
  | .jumpTo n, _ => n
  | .other, cur => cur

theorem paginate_length_pos (text : List Char) (ps : Nat) :
    1 ≤ (paginate text ps).length := by
  unfold paginate
  by_cases h : text.isEmpty = true
  · rw [if_pos h]; simp
  · rw [if_neg h]
    by_cases h2 : (paginateAux ps text.length text).isEmpty = true
    · rw [if_pos h2]; simp
    · rw [if_neg h2]
      cases hp : paginateAux ps text.length text with
      | nil => rw [hp] at h2; simp at h2
      | cons a l => simp

/-- Claim C10: for every stored README blob and every requested page number
(including negative ones and ones at or beyond the page count, as produced
by Previous on page 0 or Next on the last page), the display clamps the
page into `[0, total_pages - 1]`, pagination guarantees at least one page
so the lookup is in bounds, and the clamped value is what gets stored back
as the current page. -/
theorem readme_page_clamped (text : List Char) (page : Int) :
    0 ≤ (displayReadmePage text page).storedPage ∧
    (displayReadmePage text page).storedPage <
      ((displayReadmePage text page).totalPages : Int) ∧
    1 ≤ (displayReadmePage text page).totalPages ∧
    (displayReadmePage text page).storedPage.toNat <
      (paginate text PAGE_SIZE).length ∧
    (displayReadmePage text page).storedPage =
      max 0 (min page (((paginate text PAGE_SIZE).length : Int) - 1)) ∧
    (displayReadmePage text page).content =
      (paginate text PAGE_SIZE).getD
        (displayReadmePage text page).storedPage.toNat [] ∧
    navTarget ReadmeNavData.prev 0 = -1 ∧
    navTarget ReadmeNavData.next page = page + 1 := by
  have htot : 1 ≤ (paginate text PAGE_SIZE).length := paginate_length_pos _ _
  unfold displayReadmePage
  refine ⟨?_, ?_, ?_, ?_, rfl, rfl, rfl, rfl⟩ <;> simp only [] <;> omega

/-! ### Animation-loop error handling
(`src/utils/loading.py`, `_animate_balanced`, lines 105-149). -/

/-- Outcome of one `message.edit_text` call inside the loop. -/
inductive EditOutcome
  | okEdit        -- the edit succeeded
  | notModified   -- `BadRequest` with "message is not modified"
  | badRequest    -- any other `BadRequest`
  | otherError    -- any other exception
deriving DecidableEq

/-- Outcomes on which the loop logs once and executes `break`. -/
def isFatalEdit : EditOutcome → Bool
  | .okEdit => false
  | .notModified => false
  | .badRequest => true
  | .otherError => true

structure LoopRun where
  frames : Nat   -- number of edit attempts performed
  logged : Nat   -- number of log lines emitted
  broke : Bool   -- the loop exited via `break`
deriving DecidableEq

/-- One execution of the animation loop: the script lists each frame's edit
outcome in order; exhausting the script models external cancellation (or
the optional `duration` elapsing), the loop's normal exits. -/
def animateLoop : List EditOutcome → LoopRun
  | [] => ⟨0, 0, false⟩
  | o :: rest =>
    if isFatalEdit o then ⟨1, 1, true⟩
    else
      ⟨(animateLoop rest).frames + 1, (animateLoop rest).logged,
        (animateLoop rest).broke⟩

/-- Counterexample to claim C3 as stated: on an edit error other than
"message is not modified" the loop logs once and `break`s — it does not
continue to the next frame. With script `[badRequest, okEdit]` only one
frame is attempted. -/
theorem animate_loop_counterexample :
    animateLoop [EditOutcome.badRequest, EditOutcome.okEdit] = ⟨1, 1, true⟩ ∧
    (animateLoop [EditOutcome.badRequest, EditOutcome.okEdit]).frames ≠ 2 := by
  constructor <;> decide

/-- Claim C3, amended: an `Unmodified` edit rejection is swallowed silently
(never logged) and the loop continues; any other edit error is logged
exactly once and the loop terminates (`break`) at that frame, so at most
one line is logged per loop execution. -/
theorem animate_loop_error_handling (script : List EditOutcome) :
    (animateLoop script).logged ≤ 1 ∧
    ((∀ o ∈ script, isFatalEdit o = false) →
      animateLoop script = ⟨script.length, 0, false⟩) ∧
    (∀ k, k < script.length →
      (∀ j, j < k → isFatalEdit (script.getD j .okEdit) = false) →
      isFatalEdit (script.getD k .okEdit) = true →
      animateLoop script = ⟨k + 1, 1, true⟩) := by
  induction script with
  | nil =>
    refine ⟨by simp [animateLoop], fun _ => rfl, ?_⟩
    intro k hk
    simp at hk
  | cons o rest ih =>
    by_cases ho : isFatalEdit o = true
    · refine ⟨?_, ?_, ?_⟩
      · simp [animateLoop, ho]
      · intro hall
        have := hall o (List.mem_cons_self _ _)
        rw [ho] at this
        exact absurd this (by simp)
      · intro k hk hbefore hfatal
        cases k with
        | zero => simp [animateLoop, ho]
        | succ k' =>
          have h0 := hbefore 0 (Nat.succ_pos _)
          rw [List.getD_cons_zero, ho] at h0
          exact absurd h0 (by simp)
    · have ho' : isFatalEdit o = false := by simpa using ho
      refine ⟨?_, ?_, ?_⟩
      · have := ih.1
        simp [animateLoop, ho']
        omega
      · intro hall
        have h1 := ih.2.1 (fun x hx => hall x (List.mem_cons_of_mem _ hx))
        simp [animateLoop, ho', h1]
      · intro k hk hbefore hfatal
        cases k with
        | zero =>
          rw [List.getD_cons_zero] at hfatal
          rw [ho'] at hfatal
          exact absurd hfatal (by simp)
        | succ k' =>
          have h1 := ih.2.2 k' (by simpa using hk)
            (fun j hj => by
              have := hbefore (j + 1) (by omega)
              rwa [List.getD_cons_succ] at this)
            (by rwa [List.getD_cons_succ] at hfatal)
          simp [animateLoop, ho', h1]

/-- Witness for the amended C3: `notModified` is swallowed and the loop
continues; a later `otherError` stops the loop with a single log line. -/
theorem animate_loop_error_handling_witness :
    animateLoop [EditOutcome.notModified, EditOutcome.okEdit] =
      ⟨2, 0, false⟩ ∧
    animateLoop
        [EditOutcome.notModified, EditOutcome.otherError, EditOutcome.okEdit] =
      ⟨2, 1, true⟩ :=
  ⟨(animate_loop_error_handling [EditOutcome.notModified, EditOutcome.okEdit]).2.1
      (by decide),
    (animate_loop_error_handling
        [EditOutcome.notModified, EditOutcome.otherError, EditOutcome.okEdit]).2.2
      1 (by decide) (by decide) (by decide)⟩

/-! ### Loading-session termination (claim C1): the cancellation discipline
of `handle_readme` (`src/handlers/readme.py`, lines 44-107) and
`ProfileHandler.show_profile` (`src/profile/handler.py`, lines 60-98). -/

inductive TaskState
  | running
  | completed
  | cancelled
deriving DecidableEq

/-- `if loading_task and not loading_task.done(): loading_task.cancel();
await loading_task` — the stop step both handlers run in every branch. -/
def stopLoading : TaskState → TaskState
  | .running => .cancelled
  | s => s

/-- The outcome of the external fetch: a returned value (possibly
`None`/empty) or a raised exception. -/
inductive FetchResult (α : Type)
  | returns (val : Option α)
  | raises

inductive ViewEvent (V : Type)
  | stopTask
  | commit (v : V)

structure HandlerRun (V : Type) where
  task : TaskState
  trace : List (ViewEvent V)

inductive ReadmeView
  | noReadme                      -- "No README Found" error view
  | readmePage (content : List Char)  -- first README page
  | fetchError                    -- "Fetch Error" view

/-- `handle_readme` after the loading task is started (lines 44-107):
fetch; stop the loading task; commit the view the branch selects.
`returns none` and `returns (some "")` both hit the `if not text:` branch. -/
def handleReadme (f : FetchResult (List Char)) (t0 : TaskState) :
    HandlerRun ReadmeView :=
  match f with
  | .returns none => ⟨stopLoading t0, [.stopTask, .commit .noReadme]⟩
  | .returns (some s) =>
    if s.isEmpty then ⟨stopLoading t0, [.stopTask, .commit .noReadme]⟩
    else
      ⟨stopLoading t0,
        [.stopTask, .commit (.readmePage (displayReadmePage s 0).content)]⟩
  | .raises => ⟨stopLoading t0, [.stopTask, .commit .fetchError]⟩

inductive ProfileView (α : Type)
  | notFoundView
  | profileOf (u : α)
  | searchErrorView

/-- `ProfileHandler.show_profile` after the loading task is started
(lines 60-98): fetch the user; stop the loading task; commit not-found,
the profile, or the search-error view. -/
def showProfile {α : Type} (f : FetchResult α) (t0 : TaskState) :
    HandlerRun (ProfileView α) :=
  match f with
  | .returns none => ⟨stopLoading t0, [.stopTask, .commit .notFoundView]⟩
  | .returns (some u) => ⟨stopLoading t0, [.stopTask, .commit (.profileOf u)]⟩
  | .raises => ⟨stopLoading t0, [.stopTask, .commit .searchErrorView]⟩

theorem stopLoading_not_running (t : TaskState) :
    stopLoading t ≠ TaskState.running := by
  cases t <;> simp [stopLoading]

/-- Claim C1: whichever terminal branch executes — success, empty/not-found
data, or a raised fetch error — the loading task is stopped (cancelled if it
was still running, otherwise left in its completed state) strictly before
the final view is committed, and it is never left running. -/
theorem loading_session_terminated {α : Type} (f : FetchResult α)
    (fr : FetchResult (List Char)) (t0 t1 : TaskState) :
    ((showProfile f t0).task ≠ TaskState.running ∧
      (t0 = TaskState.running → (showProfile f t0).task = TaskState.cancelled) ∧
      ∃ v, (showProfile f t0).trace = [.stopTask, .commit v]) ∧
    ((handleReadme fr t1).task ≠ TaskState.running ∧
      (t1 = TaskState.running → (handleReadme fr t1).task = TaskState.cancelled) ∧
      ∃ v, (handleReadme fr t1).trace = [.stopTask, .commit v]) := by
  have hsp : (showProfile f t0).task = stopLoading t0 := by
    cases f with
    | returns v => cases v <;> rfl
    | raises => rfl
  have hrd : (handleReadme fr t1).task = stopLoading t1 := by
    cases fr with
    | returns v =>
      cases v with
      | none => rfl
      | some s =>
        simp only [handleReadme]
        by_cases h : s.isEmpty = true
        · rw [if_pos h]
        · rw [if_neg h]
    | raises => rfl
  refine ⟨⟨hsp ▸ stopLoading_not_running t0, ?_, ?_⟩,
    ⟨hrd ▸ stopLoading_not_running t1, ?_, ?_⟩⟩
  · intro h0
    rw [hsp, h0]
    rfl
  · cases f with
    | returns v => cases v <;> exact ⟨_, rfl⟩
    | raises => exact ⟨_, rfl⟩
  · intro h1
    rw [hrd, h1]
    rfl
  · cases fr with
    | returns v =>
      cases v with
      | none => exact ⟨_, rfl⟩
      | some s =>
        simp only [handleReadme]
        by_cases h : s.isEmpty = true
        · rw [if_pos h]
          exact ⟨_, rfl⟩
        · rw [if_neg h]
          exact ⟨_, rfl⟩
    | raises => exact ⟨_, rfl⟩

/-- Witness for C1: with the loading task still running, both a raised
readme fetch and a successful profile fetch leave the session cancelled. -/
theorem loading_session_terminated_witness :
    (showProfile (FetchResult.returns (some 0)) TaskState.running).task =
      TaskState.cancelled ∧
    (handleReadme FetchResult.raises TaskState.running).task =
      TaskState.cancelled := by
  have h := loading_session_terminated (α := Nat) (FetchResult.returns (some 0))
    FetchResult.raises TaskState.running TaskState.running
  exact ⟨h.1.2.1 rfl, h.2.2.1 rfl⟩

/-! ### GitHub API retry logic (`src/utils/git_api.py`,
`_make_request_with_retry`, lines 79-181). -/

/-- What one loop iteration observes: an HTTP status or a raised
client-side error. -/
inductive HttpAttempt
  | ok                                -- status 200
  | notFound                          -- status 404
  | forbidden (remainingZero : Bool)  -- status 403 (rate-limit header)
  | unauthorized                      -- status 401
  | serverError                       -- status >= 500
  | otherStatus                       -- any other status
  | timeoutError                      -- asyncio.TimeoutError
  | connError                         -- aiohttp.ClientConnectorError
  | clientError                       -- other aiohttp.ClientError
deriving DecidableEq

/-- The classified outcome `_make_request_with_retry` produces: returned
data or one of the typed exceptions. -/
inductive RequestOutcome
  | success
  | notFoundErr      -- NotFoundError
  | rateLimitedErr   -- RateLimitError
  | apiErr           -- GitHubAPIError
  | networkErr       -- NetworkError
deriving DecidableEq

structure RetryRun where
  result : RequestOutcome
  attempts : Nat       -- loop iterations performed
  sleeps : List Nat    -- seconds slept between attempts, in order
deriving DecidableEq

/-- The outcomes after which the loop sleeps and retries (when attempts
remain): 5xx, timeout, connection error, other client error. -/
def isTransient : HttpAttempt → Bool
  | .serverError => true
  | .timeoutError => true
  | .connError => true
  | .clientError => true
  | _ => false

/-- The `for attempt in range(max_retries)` loop (lines 98-178), one list
element per iteration: 200 returns, 404/403/401/other statuses raise
immediately, 5xx sleeps `2 ** attempt`, timeouts sleep 1, connection
errors sleep 2, other client errors sleep 1 — each retrying only while
`attempt < max_retries - 1`; an exhausted loop raises `NetworkError`
(line 181). -/
def retryGo (maxRetries : Nat) : List HttpAttempt → Nat → List Nat → RetryRun
  | [], attempt, sleeps => ⟨.networkErr, attempt, sleeps.reverse⟩
  | .ok :: _, attempt, sleeps => ⟨.success, attempt + 1, sleeps.reverse⟩
  | .notFound :: _, attempt, sleeps => ⟨.notFoundErr, attempt + 1, sleeps.reverse⟩
  | .forbidden true :: _, attempt, sleeps =>
    ⟨.rateLimitedErr, attempt + 1, sleeps.reverse⟩
  | .forbidden false :: _, attempt, sleeps =>
    ⟨.apiErr, attempt + 1, sleeps.reverse⟩
  | .unauthorized :: _, attempt, sleeps => ⟨.apiErr, attempt + 1, sleeps.reverse⟩
  | .otherStatus :: _, attempt, sleeps => ⟨.apiErr, attempt + 1, sleeps.reverse⟩
  | .serverError :: rest, attempt, sleeps =>
    if attempt < maxRetries - 1 then
      retryGo maxRetries rest (attempt + 1) (2 ^ attempt :: sleeps)
    else ⟨.apiErr, attempt + 1, sleeps.reverse⟩
  | .timeoutError :: rest, attempt, sleeps =>
    if attempt < maxRetries - 1 then
      retryGo maxRetries rest (attempt + 1) (1 :: sleeps)
    else ⟨.networkErr, attempt + 1, sleeps.reverse⟩
  | .connError :: rest, attempt, sleeps =>
    if attempt < maxRetries - 1 then
      retryGo maxRetries rest (attempt + 1) (2 :: sleeps)
    else ⟨.networkErr, attempt + 1, sleeps.reverse⟩
  | .clientError :: rest, attempt, sleeps =>
    if attempt < maxRetries - 1 then
      retryGo maxRetries rest (attempt + 1) (1 :: sleeps)
    else ⟨.networkErr, attempt + 1, sleeps.reverse⟩

/-- `_make_request_with_retry(...)`: at most `max_retries` iterations over
the attempt outcomes. -/
def runRetry (script : List HttpAttempt) (maxRetries : Nat) : RetryRun :=
  retryGo maxRetries (script.take maxRetries) 0 []

/-- Default keyword arguments (line 83-84): `timeout: int = 8`,
`max_retries: int = 3`. -/
def requestTimeoutDefault : Nat := 8

def maxRetriesDefault : Nat := 3

/-- The progressive per-attempt timeouts of `profile/social.py`
(`retry_timeouts = [8, 12, 20]`, line 287), passed as `timeout=` to both
`_make_request_with_retry` calls there (lines 300 and 307). -/
def socialRetryTimeouts : List Nat := [8, 12, 20]

/-- The explicit or defaulted `timeout=` seconds at every call site of
`_make_request_with_retry` in the repository, in file order:
git_api.py fetchers (repo/contributors/releases/prs/issues/languages/
readme 6, search 8, user 6, user_repos 6, trending 8, rate-limit and
token-validation default 8), display.py (readme-info 4, refresh 8),
handler.py avatar refresh 8, profile/repositories.py (user 10, repos 12,
starred 12), profile/stats.py (user 10, events 10, activity events 10),
and profile/social.py (both sites take each of `retry_timeouts`'
values 8, 12, 20 across attempts). -/
def callSiteTimeouts : List Nat :=
  [6, 6, 6, 6, 6, 6, 6, 8, 6, 6, 8, 8, 8, 4, 8, 8,
   10, 12, 12, 10, 10, 10] ++ socialRetryTimeouts ++ socialRetryTimeouts

/-- Delays strictly increase (the shape exponential backoff produces). -/
def strictIncreasing : List Nat → Bool
  | a :: b :: t => decide (a < b) && strictIncreasing (b :: t)
  | _ => true

/-- Counterexample to claim C7 as stated, on two conjuncts. (1) Timeout
(and connection/client) errors are retried with a constant delay
(`await asyncio.sleep(1)` / `sleep(2)`), not exponential backoff; only 5xx
server errors sleep `2 ** attempt`. (2) Not every call carries a
single-digit timeout: profile/repositories.py passes `timeout=12`, and
profile/social.py passes up to `timeout=20` (`retry_timeouts[attempt]`). -/
theorem retry_backoff_counterexample :
    (runRetry [HttpAttempt.timeoutError, HttpAttempt.timeoutError,
        HttpAttempt.timeoutError] 3).sleeps = [1, 1] ∧
    strictIncreasing (runRetry [HttpAttempt.timeoutError,
        HttpAttempt.timeoutError, HttpAttempt.timeoutError] 3).sleeps = false ∧
    (runRetry [HttpAttempt.serverError, HttpAttempt.serverError,
        HttpAttempt.serverError] 3).sleeps = [1, 2] ∧
    12 ∈ callSiteTimeouts ∧ 20 ∈ callSiteTimeouts := by
  refine ⟨rfl, rfl, rfl, by decide, by decide⟩

theorem take_getD {α : Type} (d : α) :
    ∀ (l : List α) (n k : Nat), k < n → (l.take n).getD k d = l.getD k d := by
  intro l
  induction l with
  | nil => intro n k _; simp
  | cons a rest ih =>
    intro n k hk
    cases n with
    | zero => omega
    | succ m =>
      cases k with
      | zero => simp
      | succ k' =>
        simp only [List.take_succ_cons, List.getD_cons_succ]
        exact ih m k' (by omega)

theorem retryGo_attempts_le (maxR : Nat) :
    ∀ (evs : List HttpAttempt) (attempt : Nat) (sleeps : List Nat),
      (retryGo maxR evs attempt sleeps).attempts ≤ attempt + evs.length := by
  intro evs
  induction evs with
  | nil => intro attempt sleeps; simp [retryGo]
  | cons ev rest ih =>
    intro attempt sleeps
    cases ev with
    | ok => simp [retryGo]
    | notFound => simp [retryGo]
    | forbidden z => cases z <;> simp [retryGo]
    | unauthorized => simp [retryGo]
    | otherStatus => simp [retryGo]
    | serverError =>
      simp only [retryGo]
      by_cases h : attempt < maxR - 1
      · rw [if_pos h]
        have := ih (attempt + 1) (2 ^ attempt :: sleeps)
        simpa [Nat.add_comm, Nat.add_left_comm] using this
      · rw [if_neg h]; simp
    | timeoutError =>
      simp only [retryGo]
      by_cases h : attempt < maxR - 1
      · rw [if_pos h]
        have := ih (attempt + 1) (1 :: sleeps)
        simpa [Nat.add_comm, Nat.add_left_comm] using this
      · rw [if_neg h]; simp
    | connError =>
      simp only [retryGo]
      by_cases h : attempt < maxR - 1
      · rw [if_pos h]
        have := ih (attempt + 1) (2 :: sleeps)
        simpa [Nat.add_comm, Nat.add_left_comm] using this
      · rw [if_neg h]; simp
    | clientError =>
      simp only [retryGo]
      by_cases h : attempt < maxR - 1
      · rw [if_pos h]
        have := ih (attempt + 1) (1 :: sleeps)
        simpa [Nat.add_comm, Nat.add_left_comm] using this
      · rw [if_neg h]; simp

theorem retryGo_notFound (maxR : Nat) :
    ∀ (evs : List HttpAttempt) (attempt : Nat) (sleeps : List Nat) (k : Nat),
      (∀ j, j < k → isTransient (evs.getD j .ok) = true) →
      evs.getD k .ok = HttpAttempt.notFound →
      attempt + k + 1 ≤ maxR →
      ∃ sl, retryGo maxR evs attempt sleeps =
        ⟨RequestOutcome.notFoundErr, attempt + k + 1, sl⟩ := by
  intro evs
  induction evs with
  | nil =>
    intro attempt sleeps k _ hk _
    simp at hk
  | cons ev rest ih =>
    intro attempt sleeps k htrans hk hle
    cases k with
    | zero =>
      rw [List.getD_cons_zero] at hk
      subst hk
      exact ⟨sleeps.reverse, rfl⟩
    | succ k' =>
      have h0 := htrans 0 (Nat.succ_pos _)
      rw [List.getD_cons_zero] at h0
      rw [List.getD_cons_succ] at hk
      have hstep : ∀ j, j < k' → isTransient (rest.getD j .ok) = true := by
        intro j hj
        have := htrans (j + 1) (by omega)
        rwa [List.getD_cons_succ] at this
      have hcont : attempt < maxR - 1 := by omega
      have harith : attempt + 1 + k' + 1 = attempt + (k' + 1) + 1 := by omega
      cases ev with
      | ok => simp [isTransient] at h0
      | notFound => simp [isTransient] at h0
      | forbidden z => cases z <;> simp [isTransient] at h0
      | unauthorized => simp [isTransient] at h0
      | otherStatus => simp [isTransient] at h0
      | serverError =>
        simp only [retryGo, if_pos hcont]
        obtain ⟨sl, hsl⟩ := ih (attempt + 1) (2 ^ attempt :: sleeps) k'
          hstep hk (by omega)
        exact ⟨sl, by rw [hsl, harith]⟩
      | timeoutError =>
        simp only [retryGo, if_pos hcont]
        obtain ⟨sl, hsl⟩ := ih (attempt + 1) (1 :: sleeps) k' hstep hk (by omega)
        exact ⟨sl, by rw [hsl, harith]⟩
      | connError =>
        simp only [retryGo, if_pos hcont]
        obtain ⟨sl, hsl⟩ := ih (attempt + 1) (2 :: sleeps) k' hstep hk (by omega)
        exact ⟨sl, by rw [hsl, harith]⟩
      | clientError =>
        simp only [retryGo, if_pos hcont]
        obtain ⟨sl, hsl⟩ := ih (attempt + 1) (1 :: sleeps) k' hstep hk (by omega)
        exact ⟨sl, by rw [hsl, harith]⟩

/-- Claim C7, amended: a 404 fails on the first such response, never
retried; at most `max_retries` attempts are made in total; server (5xx)
errors back off exponentially (`2 ** attempt` seconds), while
timeout/connection/client errors are retried with constant short delays
(1, 2, and 1 second respectively) — not exponential backoff; the default
timeout is single-digit (8 seconds, `max_retries = 3`) but not every call
site is: the profile sub-views pass 10, 12, or up to 20 seconds, so call
timeouts are only bounded by 20 seconds. -/
theorem retry_policy (script : List HttpAttempt) (maxR : Nat) :
    (runRetry script maxR).attempts ≤ maxR ∧
    (∀ k, k < maxR →
      (∀ j, j < k → isTransient (script.getD j .ok) = true) →
      script.getD k .ok = HttpAttempt.notFound →
      (runRetry script maxR).result = RequestOutcome.notFoundErr ∧
      (runRetry script maxR).attempts = k + 1) ∧
    (runRetry [HttpAttempt.serverError, HttpAttempt.serverError,
        HttpAttempt.serverError] 3).sleeps = [2 ^ 0, 2 ^ 1] ∧
    (runRetry [HttpAttempt.timeoutError, HttpAttempt.timeoutError,
        HttpAttempt.timeoutError] 3).sleeps = [1, 1] ∧
    (runRetry [HttpAttempt.connError, HttpAttempt.connError,
        HttpAttempt.connError] 3).sleeps = [2, 2] ∧
    requestTimeoutDefault ≤ 9 ∧ maxRetriesDefault = 3 ∧
    (∀ t ∈ callSiteTimeouts, t ≤ 20) := by
  refine ⟨?_, ?_, rfl, rfl, rfl, by decide, rfl, by decide⟩
  · have h := retryGo_attempts_le maxR (script.take maxR) 0 []
    calc (runRetry script maxR).attempts ≤ 0 + (script.take maxR).length := h
      _ ≤ maxR := by simp
  · intro k hk htrans h404
    have htrans' : ∀ j, j < k → isTransient ((script.take maxR).getD j .ok) = true := by
      intro j hj
      rw [take_getD _ script maxR j (by omega)]
      exact htrans j hj
    have h404' : (script.take maxR).getD k .ok = HttpAttempt.notFound := by
      rw [take_getD _ script maxR k hk]
      exact h404
    obtain ⟨sl, hsl⟩ := retryGo_notFound maxR (script.take maxR) 0 [] k
      htrans' h404' (by omega)
    unfold runRetry
    rw [hsl]
    exact ⟨rfl, by simp⟩

/-- Witness for the amended C7: one transient server error followed by a
404 stops after the second attempt with `NotFoundError`. -/
theorem retry_policy_witness :
    (runRetry [HttpAttempt.serverError, HttpAttempt.notFound] 3).result =
      RequestOutcome.notFoundErr ∧
    (runRetry [HttpAttempt.serverError, HttpAttempt.notFound] 3).attempts = 2 :=
  (retry_policy [HttpAttempt.serverError, HttpAttempt.notFound] 3).2.1 1
    (by decide) (by decide) (by decide)

/-! ### Avatar round trip (`src/profile/handler.py`,
`_show_avatar_replace_message` lines 350-415,
`_handle_back_to_profile` lines 417-432,
`_restore_profile_from_avatar` lines 434-488).

The profile renderer (`display.show_user_profile` /
`_build_profile_content`, display.py) is an external collaborator here and
is passed in as a pair of functions `render`/`renderKb` from the cached
user record to the committed body and keyboard. -/

/-- The user-record fields the avatar flow reads. -/
structure UserRec where
  avatarUrl : Option String
deriving DecidableEq

inductive MsgKind
  | textMsg
  | photoMsg
deriving DecidableEq

/-- The currently displayed message: its kind, body (text or caption),
inline keyboard (rows of label/callback pairs) and chat id. -/
structure MsgView where
  kind : MsgKind
  body : String
  markup : List (List (String × String))
  chatId : Nat
deriving DecidableEq

/-- The `context.user_data` fields used by the avatar flow, plus the
displayed message. -/
structure ConvState where
  currentView : String
  currentUser : Option UserRec
  originalProfileText : Option String
  originalProfileMarkup : Option (List (List (String × String)))
  chatId : Option Nat
  msg : MsgView
deriving DecidableEq

/-- `_show_error_preserve_content`: appends an error line to the preserved
body. -/
def errorPreserveContent (originalText errorMsg : String) : String :=
  originalText ++ "\n\n❌ " ++ errorMsg ++ " - Try again"

/-- The caption of the avatar photo message (line 386). -/
def avatarCaption (username : String) : String :=
  "👤 **" ++ username ++ "'s GitHub Avatar**\n\n📸 Profile picture displayed!" ++
    "\n\n💡 **Tip:** Use the buttons below to navigate!"

/-- The avatar photo message's keyboard (lines 388-404). -/
def avatarKeyboard (username : String) : List (List (String × String)) :=
  [ [("🏠 Back to Profile", "back_to_profile"),
     ("🔄 Refresh Avatar", "refresh_avatar_" ++ username)],
    [("📂 Repositories", "user_repos_" ++ username),
     ("⭐ Starred", "user_starred_" ++ username)],
    [("👥 Followers", "user_followers_" ++ username),
     ("👤 Following", "user_following_" ++ username)],
    [("⬅️ Back to Start", "back_to_start")] ]

/-- The `show_avatar_` branch of `_handle_regular_action` (which captures
`original_text`/`original_markup` from the displayed message) followed by
`_show_avatar_replace_message`: on success it persists the prior body,
keyboard and chat id in the conversation state, deletes the text message
and replaces it with the photo message; on a missing user record or
missing avatar URL it appends an error to the preserved content and makes
no transition. -/
def showAvatarAction (st : ConvState) (username : String) : ConvState :=
  match st.currentUser with
  | none =>
    { st with msg :=
        { st.msg with body := errorPreserveContent st.msg.body "Session expired" } }
  | some u =>
    match u.avatarUrl with
    | none =>
      { st with msg :=
          { st.msg with
              body := errorPreserveContent st.msg.body "No avatar available" } }
    | some _ =>
      { currentView := "avatar"
        currentUser := st.currentUser
        originalProfileText := some st.msg.body
        originalProfileMarkup := some st.msg.markup
        chatId := some st.msg.chatId
        msg :=
          { kind := .photoMsg
            body := avatarCaption username
            markup := avatarKeyboard username
            chatId := st.msg.chatId } }

/-- `_restore_profile_from_avatar`: with a user record and a stored chat id,
delete the avatar photo message, send a fresh text message in the chat and
commit a re-render of the profile (`display.show_user_profile`) into it,
switching the view back to `"profile"`. Note what the source does NOT do:
it never reads back the persisted `original_profile_text` /
`original_profile_markup` — it re-renders from the cached user record, and
the real renderer (`_build_profile_content`) re-fetches the profile README
and calls `datetime.now()` on each evaluation. The `render`/`renderKb`
arguments therefore stand for one evaluation of that renderer; using the
same functions for the commit before `ShowAvatar` and for the restore
encodes the assumption that the renderer's output is unchanged in
between. -/
def restoreFromAvatar (render : UserRec → String)
    (renderKb : UserRec → List (List (String × String)))
    (st : ConvState) : ConvState :=
  match st.currentUser with
  | none =>
    { st with msg := { st.msg with body := st.msg.body ++ "\n\n❌ Session expired" } }
  | some u =>
    match st.chatId with
    | none => st
    | some cid =>
      { st with
          currentView := "profile"
          msg :=
            { kind := .textMsg
              body := render u
              markup := renderKb u
              chatId := cid } }

/-- `_handle_back_to_profile`: from the avatar view it reverses the avatar
transition; otherwise it re-renders the profile in place. -/
def backToProfile (render : UserRec → String)
    (renderKb : UserRec → List (List (String × String)))
    (st : ConvState) : ConvState :=
  if st.currentView = "avatar" then restoreFromAvatar render renderKb st
  else
    match st.currentUser with
    | some u =>
      { st with msg :=
          { kind := .textMsg
            body := render u
            markup := renderKb u
            chatId := st.msg.chatId } }
    | none => st

/-- The exception path of a `_handle_regular_action` sub-action (e.g.
`user_stats_`, handler.py lines 259-269): `_show_error_preserve_content`
appends an error line to the preserved profile body, keeping the profile
keyboard (which still offers the View Avatar button). -/
def failedSubAction (st : ConvState) (errMsg : String) : ConvState :=
  { st with msg :=
      { st.msg with body := errorPreserveContent st.msg.body errMsg } }

/-- Counterexample to claim C8 as stated: the restore never reads back the
persisted `original_profile_text`; it re-renders from the cached user
record. So from the reachable state where a failed sub-action (here,
loading stats) has appended `"\n\n❌ Could not load stats - Try again"` to
the displayed profile body, `ShowAvatar` followed by `Back` commits the
clean re-render — a body differing from the one displayed immediately
prior by a whole non-whitespace error line, i.e. not equal even modulo
whitespace. -/
theorem avatar_round_trip_counterexample :
    (backToProfile (fun _ => "P") (fun _ => [])
          (showAvatarAction
            (failedSubAction
              { currentView := "profile"
                currentUser := some { avatarUrl := some "http://a/img" }
                originalProfileText := none
                originalProfileMarkup := none
                chatId := none
                msg :=
                  { kind := MsgKind.textMsg
                    body := "P"
                    markup := []
                    chatId := 7 } }
              "Could not load stats")
            "alice")).msg.body ≠
      (failedSubAction
        { currentView := "profile"
          currentUser := some { avatarUrl := some "http://a/img" }
          originalProfileText := none
          originalProfileMarkup := none
          chatId := none
          msg :=
            { kind := MsgKind.textMsg
              body := "P"
              markup := []
              chatId := 7 } }
        "Could not load stats").msg.body ∧
    ((backToProfile (fun _ => "P") (fun _ => [])
          (showAvatarAction
            (failedSubAction
              { currentView := "profile"
                currentUser := some { avatarUrl := some "http://a/img" }
                originalProfileText := none
                originalProfileMarkup := none
                chatId := none
                msg :=
                  { kind := MsgKind.textMsg
                    body := "P"
                    markup := []
                    chatId := 7 } }
              "Could not load stats")
            "alice")).msg.body.data.filter (fun c => !isPySpace c)) ≠
      ((failedSubAction
        { currentView := "profile"
          currentUser := some { avatarUrl := some "http://a/img" }
          originalProfileText := none
          originalProfileMarkup := none
          chatId := none
          msg :=
            { kind := MsgKind.textMsg
              body := "P"
              markup := []
              chatId := 7 } }
        "Could not load stats").msg.body.data.filter (fun c => !isPySpace c)) := by
  constructor <;> decide

/-- Claim C8, amended: `ShowAvatar(u)` followed by `Back` does persist the
prior body, keyboard and chat id in the per-conversation state, delete the
photo message and commit a profile text message again — but `Back` commits
a re-render of the cached user record, never the persisted prior body. The
restored body therefore equals the prior body exactly (hence modulo
whitespace) only under the amendment's conditions: the body displayed
immediately prior to `ShowAvatar` is precisely the render of the cached
record (no appended error line from a failed sub-action), and the
renderer's output for that record is unchanged between the two renders
(its README fetch and date may vary in general). -/
theorem avatar_round_trip (render : UserRec → String)
    (renderKb : UserRec → List (List (String × String)))
    (st : ConvState) (u : UserRec) (url username : String)
    (hu : st.currentUser = some u)
    (hurl : u.avatarUrl = some url)
    (hbody : st.msg.body = render u)
    (hmk : st.msg.markup = renderKb u) :
    (showAvatarAction st username).originalProfileText = some st.msg.body ∧
    (showAvatarAction st username).originalProfileMarkup = some st.msg.markup ∧
    (showAvatarAction st username).chatId = some st.msg.chatId ∧
    (showAvatarAction st username).currentView = "avatar" ∧
    (showAvatarAction st username).msg.kind = MsgKind.photoMsg ∧
    (backToProfile render renderKb (showAvatarAction st username)).currentView =
      "profile" ∧
    (backToProfile render renderKb (showAvatarAction st username)).msg.kind =
      MsgKind.textMsg ∧
    (backToProfile render renderKb (showAvatarAction st username)).msg.body =
      st.msg.body ∧
    (backToProfile render renderKb (showAvatarAction st username)).msg.markup =
      st.msg.markup := by
  simp [showAvatarAction, backToProfile, restoreFromAvatar, hu, hurl,
    hbody, hmk]

/-- Witness for C8 at a concrete renderer, user record and state. -/
theorem avatar_round_trip_witness :
    (backToProfile (fun _ => "PROFILE BODY") (fun _ => [])
        (showAvatarAction
          { currentView := "profile"
            currentUser := some { avatarUrl := some "http://a/img" }
            originalProfileText := none
            originalProfileMarkup := none
            chatId := none
            msg :=
              { kind := MsgKind.textMsg
                body := "PROFILE BODY"
                markup := []
                chatId := 7 } }
          "alice")).msg.body = "PROFILE BODY" :=
  (avatar_round_trip (fun _ => "PROFILE BODY") (fun _ => [])
      { currentView := "profile"
        currentUser := some { avatarUrl := some "http://a/img" }
        originalProfileText := none
        originalProfileMarkup := none
        chatId := none
        msg :=
          { kind := MsgKind.textMsg
            body := "PROFILE BODY"
            markup := []
            chatId := 7 } }
      { avatarUrl := some "http://a/img" } "http://a/img" "alice"
      rfl rfl rfl rfl).2.2.2.2.2.2.2.1

end GitScope
